import Mathlib

/-!
Verification of the brain-dock claim/fact extraction engine.

Shallow embedding of the Python modules `apps/worker/redaction.py`,
`apps/worker/claim_schema_v2.py`, `apps/worker/extract_claims_llm.py`,
`apps/worker/extract_key_facts.py` (dedup part) and the error-handling
skeleton of `run` in `extract_claims_llm.py`.

Modelling conventions:
* a Python `str` is a `List Char` (Python indexes/slices strings by code
  point, as does `List Char`);
* Python floats are embedded as `ℚ`.  Every float in the verified code is
  either a decimal constant (0.55, 0.75, 0.9, ...) or a quotient of two
  small integers compared against such a constant; those comparisons have
  the same outcome over `ℚ` and over IEEE doubles, because the quotients
  that occur are never within 2⁻⁵⁰ of a threshold without being equal to it;
* regular expressions are embedded by a small backtracking engine
  (leftmost match, greedy quantifiers, ordered alternation) matching the
  semantics of Python's `re` for the patterns that occur in the source:
  every quantifier in those patterns applies to a character class, so the
  engine only needs classes, literals, bounded repetition and star;
* `\w` (for `\b`) is embedded for the scripts that occur in this
  repository's data: ASCII alphanumerics, underscore, Latin-1/Latin
  Extended letters, modifier letters, kana, `ー` and unified CJK.
-/

set_option maxRecDepth 20000

namespace BrainDock

abbrev Str := List Char

def txt (s : String) : Str := s.data

/-- Python's whitespace (the characters of `\s` / `str.strip` that occur in
this repository's data). -/
def isPySpace (c : Char) : Bool :=
  c == ' ' || c == '\t' || c == '\n' || c == '\r' ||
  c == Char.ofNat 11 || c == Char.ofNat 12 ||
  c == Char.ofNat 0xa0 || c == Char.ofNat 0x3000

def pyStripLeft (s : Str) : Str := s.dropWhile isPySpace

def pyStripRight (s : Str) : Str := (s.reverse.dropWhile isPySpace).reverse

/-- Python `str.strip()`. -/
def pyStrip (s : Str) : Str := pyStripRight (pyStripLeft s)

/-- Python `str.lower()` restricted to ASCII (no non-ASCII cased letters
occur in the compared literals of the embedded code). -/
def pyLower (s : Str) : Str := s.map Char.toLower

/-- Case-insensitive literal match at the start of `s`. -/
def startsWithCI (pat s : Str) : Bool :=
  match pat, s with
  | [], _ => true
  | _ :: _, [] => false
  | p :: ps, c :: cs => (Char.toLower c == Char.toLower p) && startsWithCI ps cs

/-- Case-insensitive substring test (Python `re.search` of a literal with
`re.IGNORECASE`, viewed as a Boolean). -/
def containsCI (pat : Str) : Str → Bool
  | [] => startsWithCI pat []
  | c :: rest => startsWithCI pat (c :: rest) || containsCI pat rest

/-- `re.search` of an alternation of literals, as a Boolean. -/
def containsAnyCI (pats : List Str) (s : Str) : Bool :=
  pats.any fun p => containsCI p s

/-- First alternative (in pattern order) matching at the start of `s`,
returning the matched slice of `s`. -/
def firstLitAtCI (pats : List Str) (s : Str) : Option Str :=
  match pats with
  | [] => none
  | p :: ps => if startsWithCI p s then some (s.take p.length) else firstLitAtCI ps s

/-- Leftmost match of an alternation of literals (Python `re.search`
semantics: smallest start position, then pattern order), returning the
matched slice. -/
def findFirstLitCI (pats : List Str) : Str → Option Str
  | [] => firstLitAtCI pats []
  | c :: rest =>
    match firstLitAtCI pats (c :: rest) with
    | some t => some t
    | none => findFirstLitCI pats rest

def startsWithAny (pats : List Str) (s : Str) : Bool :=
  pats.any fun p => p.isPrefixOf s

/-- Python `pat in s` (case-sensitive substring test). -/
def containsSub (pat : Str) : Str → Bool
  | [] => pat.isPrefixOf []
  | c :: rest => pat.isPrefixOf (c :: rest) || containsSub pat rest

/-! ## Regex engine

Backtracking matcher in continuation-passing style.  `left` is the reversed
list of characters before the current position (needed for `\b`), `rest`
the characters from the current position on.  Alternation is ordered and
quantifiers are greedy, as in Python `re`. -/

inductive RE where
  | eps
  | cls (p : Char → Bool)
  | lit (s : Str)
  | litCI (s : Str)
  | cat (a b : RE)
  | alt (a b : RE)
  | opt (a : RE)
  | starCls (p : Char → Bool)
  | repCls (p : Char → Bool) (n : Nat)
  | wordB

/-- Python `\w` for the scripts occurring in this repository. -/
def isWordChar (c : Char) : Bool :=
  c.isAlphanum || c == '_' ||
  (0xc0 ≤ c.toNat && c.toNat ≤ 0x24f) ||
  (0x2b0 ≤ c.toNat && c.toNat ≤ 0x2ff) ||
  (0x3040 ≤ c.toNat && c.toNat ≤ 0x30ff) ||
  c == 'ー' ||
  (0x4e00 ≤ c.toNat && c.toNat ≤ 0x9fff)

def lastIsWord : Str → Bool
  | [] => false
  | c :: _ => isWordChar c

def nextIsWord : Str → Bool
  | [] => false
  | c :: _ => isWordChar c

def atBoundary (left rest : Str) : Bool :=
  lastIsWord left != nextIsWord rest

def runLit (t : Str) (left rest : Str) (k : Str → Str → Option Str) : Option Str :=
  match t, rest with
  | [], _ => k left rest
  | _ :: _, [] => none
  | a :: ts, c :: cs => if c == a then runLit ts (c :: left) cs k else none

def runLitCI (t : Str) (left rest : Str) (k : Str → Str → Option Str) : Option Str :=
  match t, rest with
  | [], _ => k left rest
  | _ :: _, [] => none
  | a :: ts, c :: cs =>
    if Char.toLower c == Char.toLower a then runLitCI ts (c :: left) cs k else none

/-- Greedy star over a character class: try to consume more first, fall back
to stopping here. -/
def runStar (p : Char → Bool) (left rest : Str) (k : Str → Str → Option Str) : Option Str :=
  match rest with
  | [] => k left []
  | c :: cs =>
    if p c then
      match runStar p (c :: left) cs k with
      | some r => some r
      | none => k left (c :: cs)
    else k left (c :: cs)

def runRep (p : Char → Bool) : Nat → Str → Str → (Str → Str → Option Str) → Option Str
  | 0, left, rest, k => k left rest
  | _ + 1, _, [], _ => none
  | n + 1, left, c :: cs, k => if p c then runRep p n (c :: left) cs k else none

def runRE : RE → Str → Str → (Str → Str → Option Str) → Option Str
  | .eps, left, rest, k => k left rest
  | .cls _, _, [], _ => none
  | .cls p, left, c :: cs, k => if p c then k (c :: left) cs else none
  | .lit t, left, rest, k => runLit t left rest k
  | .litCI t, left, rest, k => runLitCI t left rest k
  | .cat a b, left, rest, k => runRE a left rest fun l r => runRE b l r k
  | .alt a b, left, rest, k =>
    match runRE a left rest k with
    | some r => some r
    | none => runRE b left rest k
  | .opt a, left, rest, k =>
    match runRE a left rest k with
    | some r => some r
    | none => k left rest
  | .starCls p, left, rest, k => runStar p left rest k
  | .repCls p n, left, rest, k => runRep p n left rest k
  | .wordB, left, rest, k => if atBoundary left rest then k left rest else none

/-- Match `r` at the current position; returns the text remaining after the
match. -/
def reMatchAt (r : RE) (left rest : Str) : Option Str :=
  runRE r left rest fun _ rem => some rem

def reSearchAux (r : RE) (left : Str) : Str → Bool
  | [] => (reMatchAt r left []).isSome
  | c :: cs => (reMatchAt r left (c :: cs)).isSome || reSearchAux r (c :: left) cs

/-- `pattern.search(s)` as a Boolean. -/
def reSearch (r : RE) (s : Str) : Bool := reSearchAux r [] s

/-- Python `fill * n` (string repetition). -/
def fillRepeat (fill : Str) (n : Nat) : Str := (List.replicate n fill).flatten

/-- `pattern.sub(fill * len(match), s)`: scan left to right, replace each
leftmost non-overlapping match of length `n` by `fill * n`.  The fuel is the
input length; every step consumes at least one character. -/
def reSubFuel (r : RE) (fill : Str) : Nat → Str → Str → Str
  | 0, _, rest => rest
  | _ + 1, _, [] => []
  | fuel + 1, left, c :: cs =>
    match reMatchAt r left (c :: cs) with
    | some rem =>
      let n := (c :: cs).length - rem.length
      if n == 0 then c :: reSubFuel r fill fuel (c :: left) cs
      else fillRepeat fill n ++ reSubFuel r fill fuel (((c :: cs).take n).reverse ++ left) rem
    | none => c :: reSubFuel r fill fuel (c :: left) cs

def reSub (r : RE) (fill : Str) (s : Str) : Str := reSubFuel r fill s.length [] s

/-! ## `apps/worker/redaction.py` -/

def isAlnumA (c : Char) : Bool := c.isAlphanum
def isDigitA (c : Char) : Bool := c.isDigit
def isAlphaA (c : Char) : Bool := c.isAlpha
def isEmailLocalChar (c : Char) : Bool :=
  c.isAlphanum || c == '.' || c == '_' || c == '%' || c == '+' || c == '-'
def isEmailDomainChar (c : Char) : Bool := c.isAlphanum || c == '.' || c == '-'
def isPhoneInnerChar (c : Char) : Bool :=
  c.isDigit || c == '-' || isPySpace c || c == '(' || c == ')'
def isSecretValueChar (c : Char) : Bool := c.isAlphanum || c == '_' || c == '-'
def isKeySepChar (c : Char) : Bool := c == '_' || c == '-'
def isColonEq (c : Char) : Bool := c == ':' || c == '='
def isQuoteChar (c : Char) : Bool := c == Char.ofNat 39 || c == Char.ofNat 34

def reSeq (rs : List RE) : RE := rs.foldr RE.cat RE.eps

def reAlts : List RE → RE
  | [] => RE.eps
  | [r] => r
  | r :: rs => RE.alt r (reAlts rs)

/-- `\bsk-[A-Za-z0-9]{20,}\b` -/
def SK_PATTERN : RE :=
  reSeq [.wordB, .lit (txt "sk-"), .repCls isAlnumA 20, .starCls isAlnumA, .wordB]

/-- `(?i)(?:api[_-]?key|secret|token|password|passwd)` -/
def KEYWORD_RE : RE :=
  reAlts [reSeq [.litCI (txt "api"), .opt (.cls isKeySepChar), .litCI (txt "key")],
          .litCI (txt "secret"), .litCI (txt "token"),
          .litCI (txt "password"), .litCI (txt "passwd")]

/-- `(?i)\b(?:api[_-]?key|secret|token|password|passwd)\b\s*[:=]\s*['"]?[A-Za-z0-9_\-]{12,}` -/
def KEYVAL_PATTERN : RE :=
  reSeq [.wordB, KEYWORD_RE, .wordB, .starCls isPySpace, .cls isColonEq,
         .starCls isPySpace, .opt (.cls isQuoteChar),
         .repCls isSecretValueChar 12, .starCls isSecretValueChar]

def SECRET_PATTERNS : List RE := [SK_PATTERN, KEYVAL_PATTERN]

/-- `\b[A-Za-z0-9._%+\-]+@[A-Za-z0-9.\-]+\.[A-Za-z]{2,}\b` -/
def EMAIL_RE : RE :=
  reSeq [.wordB, .repCls isEmailLocalChar 1, .starCls isEmailLocalChar,
         .cls (fun c => c == '@'), .repCls isEmailDomainChar 1, .starCls isEmailDomainChar,
         .lit (txt "."), .repCls isAlphaA 2, .starCls isAlphaA, .wordB]

/-- `\+?\d[\d\-\s()]{8,}\d` -/
def PHONE_RE : RE :=
  reSeq [.opt (.cls (fun c => c == '+')), .cls isDigitA,
         .repCls isPhoneInnerChar 8, .starCls isPhoneInnerChar, .cls isDigitA]

/-- `\b\d{3}-\d{4}\b` -/
def POSTAL_RE : RE :=
  reSeq [.wordB, .repCls isDigitA 3, .lit (txt "-"), .repCls isDigitA 4, .wordB]

structure RedactionResult where
  original_text : Str
  llm_text : Str
  pii_score : ℚ
  risk_level : Str
  redaction_state : Str
  deriving DecidableEq, Repr

def estimate_pii_score (text : Str) : ℚ :=
  let score : ℚ := 0
  let score := SECRET_PATTERNS.foldl
    (fun sc p => if reSearch p text then max sc (mkRat 95 100) else sc) score
  let score := if reSearch EMAIL_RE text then max score (mkRat 55 100) else score
  let score := if reSearch PHONE_RE text then max score (mkRat 65 100) else score
  let score := if reSearch POSTAL_RE text then max score (mkRat 70 100) else score
  min score 1

def classify_risk (pii_score : ℚ) : Str :=
  if pii_score ≥ mkRat 90 100 then txt "high"
  else if pii_score ≥ mkRat 50 100 then txt "medium"
  else txt "low"

/-- The replacement string that literally appears in the source: the
three-character sequence `â–ˆ` (a mojibake double encoding of `█`). -/
def MOJI_FILL : Str := txt "â–ˆ"

def maskWithSameLength (text : Str) (p : RE) : Str := reSub p MOJI_FILL text

def mask_text (text : Str) : Str :=
  let masked := SECRET_PATTERNS.foldl maskWithSameLength text
  let masked := maskWithSameLength masked EMAIL_RE
  let masked := maskWithSameLength masked PHONE_RE
  let masked := maskWithSameLength masked POSTAL_RE
  masked

def redact_for_llm (text : Str) : RedactionResult :=
  let pii_score := estimate_pii_score text
  let risk_level := classify_risk pii_score
  if risk_level = txt "high" then
    { original_text := text, llm_text := [], pii_score := pii_score,
      risk_level := risk_level, redaction_state := txt "blocked" }
  else if risk_level = txt "medium" then
    { original_text := text, llm_text := mask_text text, pii_score := pii_score,
      risk_level := risk_level, redaction_state := txt "masked" }
  else
    { original_text := text, llm_text := text, pii_score := pii_score,
      risk_level := risk_level, redaction_state := txt "none" }

/-! ## `apps/worker/claim_schema_v2.py` — data model -/

def SUPPORTED_MODALITIES : List Str :=
  [txt "fact", txt "plan", txt "hypothesis", txt "request", txt "feeling"]

def SUPPORTED_POLARITIES : List Str := [txt "affirm", txt "negate"]

def SUPPORTED_RELATIONS : List Str :=
  [txt "supports", txt "contradicts", txt "caused_by", txt "follow_up", txt "same_event"]

def SUPPORTED_ENTITY_TYPES : List Str :=
  [txt "person", txt "organization", txt "project", txt "place", txt "concept", txt "other"]

def SUPPORTED_ME_ROLES : List Str :=
  [txt "actor", txt "experiencer", txt "observer", txt "recipient", txt "none"]

def SUPPORTED_DIMENSION_TYPES : List Str :=
  [txt "person", txt "place", txt "activity", txt "emotion", txt "health",
   txt "topic", txt "project", txt "item", txt "reason", txt "time_hint"]

def SUPPORTED_DIMENSION_SOURCES : List Str := [txt "llm", txt "rule", txt "manual"]

def SUPPORTED_PREDICATES : List Str :=
  [txt "did", txt "was_with", txt "went_to", txt "experienced", txt "chose",
   txt "ended", txt "felt", txt "was_affected_by", txt "happened", txt "decided",
   txt "learned", txt "planned", txt "requested", txt "mentions"]

structure ParsedEvidenceSpan where
  char_start : Option Int
  char_end : Option Int
  excerpt : Str
  deriving DecidableEq, Repr

structure ParsedDimension where
  dimension_type : Str
  dimension_value : Str
  confidence : ℚ
  source : Str
  deriving DecidableEq, Repr

/-- `ParsedClaim`.  The Python dataclass carries one more field,
`object_text`, which `__post_init__` always sets to
`object_text_canonical[:1000]`; since `object_text_canonical` is itself
truncated to 1000 characters, `object_text` always equals
`object_text_canonical` and is modelled as the derived accessor
`ParsedClaim.object_text` below rather than as a stored field. -/
structure ParsedClaim where
  subject_text : Str
  predicate : Str
  object_text_raw : Str
  object_text_canonical : Str
  me_role : Str
  modality : Str
  polarity : Str
  certainty : ℚ
  time_start_utc : Option Str
  time_end_utc : Option Str
  subject_entity_name : Option Str
  object_entity_name : Option Str
  dimensions : List ParsedDimension
  evidence_spans : List ParsedEvidenceSpan
  deriving DecidableEq, Repr

def ParsedClaim.object_text (c : ParsedClaim) : Str := c.object_text_canonical

/-- `ParsedClaim.__post_init__`: fill `object_text_raw` from
`object_text_canonical` (the constructor argument `object_text` is always
empty in this subsystem), fill `object_text_canonical` from the raw text,
truncate both to 1000 characters, and reset an unsupported `me_role` to
`"none"`. -/
def mkParsedClaim (c : ParsedClaim) : ParsedClaim :=
  let raw := c.object_text_raw
  let canonical := if c.object_text_canonical = [] then raw else c.object_text_canonical
  { c with
    object_text_raw := raw.take 1000
    object_text_canonical := canonical.take 1000
    me_role := if c.me_role ∈ SUPPORTED_ME_ROLES then c.me_role else txt "none" }

/-- A claim as the Python constructor would have produced it. -/
def ParsedClaim.wf (c : ParsedClaim) : Prop := mkParsedClaim c = c

instance (c : ParsedClaim) : Decidable c.wf := by unfold ParsedClaim.wf; infer_instance

structure ParsedEntity where
  name : Str
  entity_type : Str
  aliases : List Str
  deriving DecidableEq, Repr

structure ParsedClaimLink where
  from_claim_index : Nat
  to_claim_index : Nat
  relation_type : Str
  confidence : ℚ
  deriving DecidableEq, Repr

structure ParsedClaimsOutput where
  claims : List ParsedClaim
  entities : List ParsedEntity
  links : List ParsedClaimLink
  deriving DecidableEq, Repr

/-! ## `apps/worker/extract_claims_llm.py` — quality gate -/

def _is_quality_ok (claim : ParsedClaim) : Bool :=
  pyStrip claim.object_text_canonical ≠ []

/-- One step of the indexed filtering loop of `apply_quality_gate`:
state is (quality_flags, filtered_claims, index_map as an association
list). -/
def gateStep (st : List Str × List ParsedClaim × List (Nat × Nat)) (ic : Nat × ParsedClaim) :
    List Str × List ParsedClaim × List (Nat × Nat) :=
  let (flags, filtered, imap) := st
  if _is_quality_ok ic.2 then
    (flags, filtered ++ [ic.2], imap ++ [(ic.1, filtered.length)])
  else
    (flags ++ [txt "claim_rejected:" ++ Nat.toDigits 10 ic.1], filtered, imap)

def lookupIdx (imap : List (Nat × Nat)) (i : Nat) : Option Nat :=
  (imap.find? fun p => p.1 == i).map Prod.snd

def apply_quality_gate (parsed : ParsedClaimsOutput) : ParsedClaimsOutput × List Str :=
  let (flags, filteredClaims, imap) := parsed.claims.enum.foldl gateStep ([], [], [])
  let filteredLinks := parsed.links.filterMap fun (link : ParsedClaimLink) =>
    match lookupIdx imap link.from_claim_index, lookupIdx imap link.to_claim_index with
    | some a, some b =>
      some { from_claim_index := a, to_claim_index := b,
             relation_type := link.relation_type, confidence := link.confidence }
    | _, _ => none
  (⟨filteredClaims, parsed.entities, filteredLinks⟩, flags)

/-! ## `apps/worker/extract_claims_llm.py` — lexical tables

Each table is the ordered expansion of the corresponding compiled regex
(alternations of literals, optional groups expanded greedily-first). -/

/-- `^(?:me|i|myself|私|わたし|僕|ぼく|俺|おれ|自分)$`, `re.IGNORECASE`. -/
def ME_REFERENCE_WORDS : List Str :=
  [txt "me", txt "i", txt "myself", txt "私", txt "わたし", txt "僕",
   txt "ぼく", txt "俺", txt "おれ", txt "自分"]

def DECISION_PREDICATES : List Str := [txt "chose", txt "ended", txt "decided"]

def EVENT_PREDICATES : List Str := [txt "happened", txt "experienced", txt "was_affected_by"]

/-- `(because|due to|ので|から|ため|せいで)` -/
def CAUSE_HINT_WORDS : List Str :=
  [txt "because", txt "due to", txt "ので", txt "から", txt "ため", txt "せいで"]

/-- `(rain|雨)` -/
def RAIN_HINT_WORDS : List Str := [txt "rain", txt "雨"]

/-- The day words of `TEMPORAL_PREFIX_RE` (`^(...)は`), with each optional
`(?:日)?` expanded into the longer alternative first. -/
def TEMPORAL_DAY_WORDS : List Str :=
  [txt "今日", txt "昨日", txt "明日", txt "今朝", txt "今夜", txt "昨夜",
   txt "先週", txt "今週", txt "来週", txt "先月", txt "今月", txt "来月",
   txt "月曜日", txt "月曜", txt "火曜日", txt "火曜", txt "水曜日", txt "水曜",
   txt "木曜日", txt "木曜", txt "金曜日", txt "金曜", txt "土曜日", txt "土曜",
   txt "日曜日", txt "日曜"]

def STATE_CHANGE_HINT_WORDS : List Str :=
  [txt "悪化", txt "改善", txt "回復", txt "低下", txt "上昇", txt "不調",
   txt "悪く", txt "良く", txt "崩れ", txt "しんど", txt "痛", txt "つら",
   txt "worsen", txt "worsened", txt "worsening", txt "improv", txt "recover"]

/-- `(喉(?:の調子)?|のど|体調|熱|咳|頭痛|胃|声|鼻|睡眠|気分|疲労|sore throat|throat|condition|health)` -/
def TOPIC_HINT_WORDS : List Str :=
  [txt "喉の調子", txt "喉", txt "のど", txt "体調", txt "熱", txt "咳",
   txt "頭痛", txt "胃", txt "声", txt "鼻", txt "睡眠", txt "気分", txt "疲労",
   txt "sore throat", txt "throat", txt "condition", txt "health"]

def ACTION_HINT_WORDS : List Str :=
  [txt "した", txt "して", txt "行っ", txt "帰宅", txt "作業", txt "トレ",
   txt "運動", txt "洗濯", txt "寝", txt "指示", txt "出し", txt "やっ",
   txt "会議", txt "勉強", txt "読書", txt "書い", txt "送っ", txt "連絡",
   txt "準備", txt "買っ"]

def PLAN_HINT_WORDS : List Str :=
  [txt "しよう", txt "する予定", txt "つもり", txt "したい", txt "忘れないよう",
   txt "しなければ", txt "べき", txt "予定", txt "to do", txt "todo"]

/-- `PREDICATE_ALIAS_PATTERNS`: ordered (alternation literals, target)
pairs; each regex is an alternation of literals with `re.IGNORECASE`. -/
def PREDICATE_ALIAS_PATTERNS : List (List Str × Str) :=
  [([txt "went_to", txt "go", txt "visit", txt "行った", txt "行く", txt "向かった", txt "訪れた"], txt "went_to"),
   ([txt "was_with", txt "with", txt "一緒", txt "同行", txt "同期と", txt "友達と", txt "同僚と"], txt "was_with"),
   ([txt "chose", txt "choice", txt "選んだ", txt "決めた"], txt "chose"),
   ([txt "ended", txt "解散", txt "終わった", txt "終了した"], txt "ended"),
   ([txt "felt", txt "感じた", txt "気分", txt "emotion"], txt "felt"),
   ([txt "learned", txt "学んだ", txt "覚えた"], txt "learned"),
   ([txt "planned", txt "予定", txt "つもり"], txt "planned"),
   ([txt "requested", txt "頼んだ", txt "依頼"], txt "requested"),
   ([txt "affected", txt "影響", txt "左右"], txt "was_affected_by"),
   ([txt "happened", txt "起きた", txt "発生", txt "降った"], txt "happened"),
   ([txt "did", txt "した", txt "実施", txt "遊んだ"], txt "did"),
   ([txt "decided", txt "判断", txt "決断"], txt "decided")]

/-! ## `apps/worker/extract_claims_llm.py` — claim normalization -/

def _normalize_subject_text (subject_text : Str) : Str :=
  let value := pyStrip subject_text
  if value = [] then txt "me"
  else if pyLower value ∈ ME_REFERENCE_WORDS then txt "me"
  else value.take 120

def _canonicalize_predicate (predicate : Str) (object_text : Str) : Str :=
  let raw := pyStrip predicate
  if raw ∈ SUPPORTED_PREDICATES then raw
  else
    let candidate := raw ++ [' '] ++ object_text
    match PREDICATE_ALIAS_PATTERNS.find? (fun pr => containsAnyCI pr.1 candidate) with
    | some pr => pr.2
    | none => txt "mentions"

def _ensure_single_evidence (claim : ParsedClaim) (raw_text : Str) : ParsedClaim :=
  if claim.evidence_spans ≠ [] then claim
  else
    let excerpt :=
      if pyStrip raw_text ≠ [] then (pyStrip raw_text).take 200
      else claim.object_text_canonical.take 200
    let excerpt := if excerpt ≠ [] then excerpt else txt "evidence unavailable"
    mkParsedClaim
      { claim with evidence_spans := [⟨none, none, excerpt⟩] }

def _make_fallback_me_claim (raw_text : Str) (occurred_at_utc : Option Str) : ParsedClaim :=
  let snippet := pyStrip raw_text
  let excerpt := if snippet ≠ [] then snippet.take 200 else txt "no text"
  mkParsedClaim
    { subject_text := txt "me"
      predicate := txt "experienced"
      object_text_raw := if snippet ≠ [] then snippet.take 1000 else txt "entry recorded"
      object_text_canonical := if snippet ≠ [] then snippet.take 1000 else txt "entry recorded"
      me_role := txt "experiencer"
      modality := txt "fact"
      polarity := txt "affirm"
      certainty := mkRat 1 2
      time_start_utc := occurred_at_utc
      time_end_utc := none
      subject_entity_name := none
      object_entity_name := none
      dimensions := []
      evidence_spans := [⟨none, none, excerpt⟩] }

/-- `CJK_RE = [ぁ-んァ-ヶ一-龠]` -/
def isCJKChar (c : Char) : Bool :=
  (0x3041 ≤ c.toNat && c.toNat ≤ 0x3093) ||
  (0x30a1 ≤ c.toNat && c.toNat ≤ 0x30f6) ||
  (0x4e00 ≤ c.toNat && c.toNat ≤ 0x9fa0)

def _contains_cjk (text : Str) : Bool := text.any isCJKChar

def _restore_object_text_from_evidence_if_translated
    (object_text : Str) (raw_text : Str) (evidence_spans : List ParsedEvidenceSpan) : Str :=
  if pyStrip raw_text = [] ∨ evidence_spans = [] then object_text
  else if ¬ _contains_cjk raw_text then object_text
  else if _contains_cjk object_text then object_text
  else
    match evidence_spans with
    | [] => object_text
    | sp :: _ =>
      let excerpt := pyStrip sp.excerpt
      if excerpt ≠ [] ∧ _contains_cjk excerpt then excerpt.take 1000 else object_text

/-- The scan behind `re.search(r"(?P<topic>[^、。]{1,24}?)が(?:悪化|...)", value)`:
at the current start position, try topic lengths 1..24 shortest-first (the
quantifier is lazy); `acc` holds the consumed topic characters reversed,
`j` their count. -/
def topicStateWords : List Str :=
  [txt "悪化", txt "悪く", txt "改善", txt "回復", txt "低下", txt "上昇", txt "不調", txt "痛"]

def topicScan (acc : Str) (j : Nat) : Str → Option Str
  | [] => none
  | c :: cs =>
    if 1 ≤ j && c == 'が' && startsWithAny topicStateWords cs then some acc.reverse
    else if j < 24 && !(c == '、') && !(c == '。') then topicScan (c :: acc) (j + 1) cs
    else none

/-- Leftmost match of the topic regex (smallest start position wins). -/
def topicSearch : Str → Option Str
  | [] => none
  | c :: cs =>
    match topicScan [] 0 (c :: cs) with
    | some t => some t
    | none => topicSearch cs

def _extract_context_topic (text : Str) : Option Str :=
  let value := pyStrip text
  if value = [] then none
  else
    match topicSearch value with
    | some t =>
      if pyStrip t ≠ [] then some ((pyStrip t).take 24)
      else findFirstLitCI TOPIC_HINT_WORDS value
    | none => findFirstLitCI TOPIC_HINT_WORDS value

def temporalPrefixAt (value : Str) : Bool :=
  TEMPORAL_DAY_WORDS.any fun d => (d ++ txt "は").isPrefixOf value

def _needs_context_completion (text : Str) : Bool :=
  let value := pyStrip text
  if value = [] then false
  else if containsAnyCI TOPIC_HINT_WORDS value then false
  else if ¬ containsAnyCI STATE_CHANGE_HINT_WORDS value then false
  else if temporalPrefixAt value then true
  else if startsWithAny [txt "さらに", txt "急に", txt "案の定"] value then true
  else value.length ≤ 24

def _normalize_time_expression_prefix (text : Str) : Str :=
  let value := pyStrip text
  let value :=
    pyStrip (if (txt "案の定").isPrefixOf value then value.drop (txt "案の定").length else value)
  match TEMPORAL_DAY_WORDS.find? (fun d => (d ++ txt "は").isPrefixOf value) with
  | some d => d ++ txt "に" ++ value.drop (d.length + 1)
  | none => value

/-- One iteration of the `_apply_context_completion` loop; the state is
(latest topic, output list). -/
def contextStep (st : Option Str × List ParsedClaim) (claim : ParsedClaim) :
    Option Str × List ParsedClaim :=
  let (latest_topic, out) := st
  let object_text := pyStrip claim.object_text_canonical
  match _extract_context_topic object_text with
  | some current => (some current, out ++ [claim])
  | none =>
    match latest_topic with
    | some topic =>
      if _needs_context_completion object_text ∧ ¬ containsSub topic object_text then
        let enriched := topic ++ txt "が" ++ _normalize_time_expression_prefix object_text
        (some topic,
         out ++ [mkParsedClaim { claim with object_text_canonical := enriched.take 1000 }])
      else (some topic, out ++ [claim])
    | none => (none, out ++ [claim])

def _apply_context_completion (claims : List ParsedClaim) : List ParsedClaim :=
  (claims.foldl contextStep (none, [])).2

/-! ### Clause splitting and coverage -/

def isSentenceTerminal (c : Char) : Bool := c == '。' || c == '！' || c == '？'

mutual

/-- `re.split(r"[。！？]\s*", text)`: accumulate the current piece
(reversed) until a terminal, then skip the whitespace of the delimiter. -/
def sentSplitAux (cur : Str) : Str → List Str
  | [] => [cur.reverse]
  | c :: cs =>
    if isSentenceTerminal c then cur.reverse :: sentSplitSkip cs
    else sentSplitAux (c :: cur) cs

def sentSplitSkip : Str → List Str
  | [] => [[]]
  | c :: cs =>
    if isPySpace c then sentSplitSkip cs
    else if isSentenceTerminal c then [] :: sentSplitSkip cs
    else sentSplitAux [c] cs

end

def sentSplit (s : Str) : List Str := sentSplitAux [] s

mutual

/-- `re.split(r"[、]\s*", text)`. -/
def clauseSplitAux (cur : Str) : Str → List Str
  | [] => [cur.reverse]
  | c :: cs =>
    if c == '、' then cur.reverse :: clauseSplitSkip cs
    else clauseSplitAux (c :: cur) cs

def clauseSplitSkip : Str → List Str
  | [] => [[]]
  | c :: cs =>
    if isPySpace c then clauseSplitSkip cs
    else if c == '、' then [] :: clauseSplitSkip cs
    else clauseSplitAux [c] cs

end

def clauseSplit (s : Str) : List Str := clauseSplitAux [] s

def _split_action_clauses (raw_text : Str) : List Str :=
  (sentSplit raw_text).flatMap fun sentence =>
    if pyStrip sentence = [] then []
    else (clauseSplit (pyStrip sentence)).filterMap fun seg =>
      if pyStrip seg = [] then none else some (pyStrip seg)

/-- The punctuation class of `_normalize_text_for_match`
(`[。、！？・,.;:()（）「」『』"'` + backquote + `]`). -/
def isMatchPunct (c : Char) : Bool :=
  c == '。' || c == '、' || c == '！' || c == '？' || c == '・' ||
  c == ',' || c == '.' || c == ';' || c == ':' || c == '(' || c == ')' ||
  c == '（' || c == '）' || c == '「' || c == '」' || c == '『' || c == '』' ||
  c == Char.ofNat 34 || c == Char.ofNat 39 || c == Char.ofNat 96

def _normalize_text_for_match (text : Str) : Str :=
  let collapsed := pyLower (pyStrip (text.filter fun c => ¬ isPySpace c))
  collapsed.filter fun c => ¬ isMatchPunct c

/-- `_char_ngrams(text, 2)`.  A Python `set` of strings is modelled as a
duplicate-free list. -/
def _char_ngrams (text : Str) : List Str :=
  if text = [] then []
  else if text.length ≤ 2 then [text]
  else (((List.range (text.length - 1)).map fun i => (text.drop i).take 2)).dedup

def _is_clause_covered (clause : Str) (claims : List ParsedClaim) : Bool :=
  let normalized_clause := _normalize_text_for_match clause
  if normalized_clause = [] then true
  else
    let clause_ngrams := _char_ngrams normalized_clause
    claims.any fun claim =>
      let canonical := _normalize_text_for_match claim.object_text_canonical
      if canonical = [] then false
      else if containsSub canonical normalized_clause || containsSub normalized_clause canonical then
        true
      else
        let canonical_ngrams := _char_ngrams canonical
        if canonical_ngrams = [] || clause_ngrams = [] then false
        else
          let overlap := (clause_ngrams.filter fun g => canonical_ngrams.contains g).length
          decide (Rat.divInt overlap (max 1 (min clause_ngrams.length canonical_ngrams.length)) ≥ mkRat 55 100)

def _clause_to_fallback_claim (clause : Str) (occurred_at_utc : Option Str) : ParsedClaim :=
  let is_plan := containsAnyCI PLAN_HINT_WORDS clause
  mkParsedClaim
    { subject_text := txt "me"
      predicate := if is_plan then txt "planned" else txt "did"
      object_text_raw := clause.take 1000
      object_text_canonical := clause.take 1000
      me_role := txt "actor"
      modality := if is_plan then txt "plan" else txt "fact"
      polarity := txt "affirm"
      certainty := if is_plan then mkRat 72 100 else mkRat 68 100
      time_start_utc := occurred_at_utc
      time_end_utc := none
      subject_entity_name := none
      object_entity_name := none
      dimensions := []
      evidence_spans :=
        [⟨none, none, if clause.take 200 ≠ [] then clause.take 200 else txt "action clause"⟩] }

def augmentStep (occurred_at_utc : Option Str) (out : List ParsedClaim) (clause : Str) :
    List ParsedClaim :=
  if clause.length < 4 then out
  else if ¬ (containsAnyCI ACTION_HINT_WORDS clause ∨ containsAnyCI PLAN_HINT_WORDS clause) then out
  else if _is_clause_covered clause out then out
  else out ++ [_clause_to_fallback_claim clause occurred_at_utc]

def _augment_missing_action_claims (claims : List ParsedClaim) (raw_text : Str)
    (occurred_at_utc : Option Str) : List ParsedClaim :=
  (_split_action_clauses raw_text).foldl (augmentStep occurred_at_utc) claims

/-! ### The normalizer -/

/-- Python `a or b` over optional strings (an empty string is falsy). -/
def pyOrOpt (a b : Option Str) : Option Str :=
  match a with
  | some s => if s = [] then b else some s
  | none => b

/-- `raw_object` of line 364: `(claim.object_text_raw or
claim.object_text_canonical or claim.object_text)[:1000]` (the `or` chain
over possibly-empty strings; `claim.object_text` is the derived accessor,
equal to `object_text_canonical`, see `ParsedClaim`). -/
def rawObjectOf (claim : ParsedClaim) : Str :=
  (if claim.object_text_raw ≠ [] then claim.object_text_raw
   else if claim.object_text_canonical ≠ [] then claim.object_text_canonical
   else claim.object_text).take 1000

/-- `normalized_object` of lines 366–370. -/
def canonicalObjectOf (raw_text : Str) (claim : ParsedClaim) : Str :=
  _restore_object_text_from_evidence_if_translated
    ((if claim.object_text_canonical ≠ [] then claim.object_text_canonical
      else rawObjectOf claim).take 1000)
    raw_text claim.evidence_spans

def normalizeOneClaim (raw_text : Str) (occurred_at_utc : Option Str) (claim : ParsedClaim) :
    ParsedClaim :=
  _ensure_single_evidence
    (mkParsedClaim
      { subject_text := _normalize_subject_text claim.subject_text
        predicate := _canonicalize_predicate claim.predicate (rawObjectOf claim)
        object_text_raw := rawObjectOf claim
        object_text_canonical := canonicalObjectOf raw_text claim
        me_role :=
          if _normalize_subject_text claim.subject_text = txt "me" ∧
              claim.me_role = txt "none" then txt "experiencer"
          else claim.me_role
        modality := claim.modality
        polarity := claim.polarity
        certainty := claim.certainty
        time_start_utc := pyOrOpt claim.time_start_utc occurred_at_utc
        time_end_utc := claim.time_end_utc
        subject_entity_name := claim.subject_entity_name
        object_entity_name := claim.object_entity_name
        dimensions := claim.dimensions
        evidence_spans := claim.evidence_spans })
    raw_text

/-- The identity index map over the normalized claims: `{i: i}` for
`i < n`, and `{0: 0}` when the list was empty (the fallback claim). -/
def validIdx (n : Nat) (i : Nat) : Bool :=
  if n = 0 then i == 0 else i < n

def decisionIndexes (claims : List ParsedClaim) : List Nat :=
  (claims.enum.filter fun p => p.2.predicate ∈ DECISION_PREDICATES).map Prod.fst

def hasDecisionCause (links : List ParsedClaimLink) (dec : List Nat) : Bool :=
  links.any fun l => l.relation_type = txt "caused_by" ∧ l.from_claim_index ∈ dec

def isCauseCandidate (dec : List Nat) (p : Nat × ParsedClaim) : Bool :=
  ¬ p.1 ∈ dec ∧
    (p.2.predicate ∈ EVENT_PREDICATES ∨ containsAnyCI RAIN_HINT_WORDS p.2.object_text_canonical)

def firstCauseCandidate (claims : List ParsedClaim) (dec : List Nat) : Option Nat :=
  ((claims.enum.find? (isCauseCandidate dec)).map Prod.fst)

/-- Lines 419–440: link every decision claim to the first cause candidate
when no decision claim has an outgoing `caused_by` link yet. -/
def synthesizeDecisionCauseLinks (claims : List ParsedClaim) (links : List ParsedClaimLink) :
    List ParsedClaimLink :=
  let dec := decisionIndexes claims
  if dec ≠ [] ∧ ¬ hasDecisionCause links dec then
    match firstCauseCandidate claims dec with
    | some j =>
      links ++ dec.map fun d =>
        { from_claim_index := d, to_claim_index := j,
          relation_type := txt "caused_by", confidence := mkRat 75 100 }
    | none => links
  else links

def contextHappenedClaim (raw_text : Str) (occurred_at_utc : Option Str) : ParsedClaim :=
  mkParsedClaim
    { subject_text := txt "context"
      predicate := txt "happened"
      object_text_raw := if raw_text ≠ [] then raw_text.take 180 else txt "context event happened"
      object_text_canonical :=
        if raw_text ≠ [] then raw_text.take 180 else txt "context event happened"
      me_role := txt "none"
      modality := txt "fact"
      polarity := txt "affirm"
      certainty := mkRat 7 10
      time_start_utc := occurred_at_utc
      time_end_utc := none
      subject_entity_name := none
      object_entity_name := none
      dimensions := []
      evidence_spans :=
        [⟨none, none, if raw_text ≠ [] then raw_text.take 180 else txt "context event"⟩] }

/-- Lines 442–477: when there is a decision claim but no event claim at
all, and the raw text has a rain/causal hint, synthesize a generic
`context happened` claim and link every decision claim to it. -/
def addContextCauseIfNeeded (claims : List ParsedClaim) (links : List ParsedClaimLink)
    (raw_text : Str) (occurred_at_utc : Option Str) :
    List ParsedClaim × List ParsedClaimLink :=
  let dec := decisionIndexes claims
  if dec ≠ [] ∧ ¬ claims.any (fun c => c.predicate ∈ EVENT_PREDICATES) then
    if containsAnyCI RAIN_HINT_WORDS raw_text ∨ containsAnyCI CAUSE_HINT_WORDS raw_text then
      let claims2 := claims ++ [contextHappenedClaim raw_text occurred_at_utc]
      let cause_idx := claims2.length - 1
      (claims2,
       links ++ dec.map fun d =>
         { from_claim_index := d, to_claim_index := cause_idx,
           relation_type := txt "caused_by", confidence := mkRat 72 100 })
    else (claims, links)
  else (claims, links)

/-- The normalized claim list with the fallback claim substituted when it
is empty (lines 361–397). -/
def withFallbackClaims (parsed : ParsedClaimsOutput) (raw_text : Str)
    (occurred_at_utc : Option Str) : List ParsedClaim :=
  let normalized_claims := parsed.claims.map (normalizeOneClaim raw_text occurred_at_utc)
  if normalized_claims = [] then [_make_fallback_me_claim raw_text occurred_at_utc]
  else normalized_claims

/-- The claim list just before causal-link synthesis (lines 399–404). -/
def preCausalClaims (parsed : ParsedClaimsOutput) (raw_text : Str)
    (occurred_at_utc : Option Str) : List ParsedClaim :=
  _augment_missing_action_claims
    (_apply_context_completion (withFallbackClaims parsed raw_text occurred_at_utc))
    raw_text occurred_at_utc

/-- Lines 406–417: the input links filtered through the identity index map
(`baseLen` is the length of the normalized claim list, which `List.map`
keeps equal to `parsed.claims.length`). -/
def reindexedLinks (parsed : ParsedClaimsOutput) : List ParsedClaimLink :=
  let baseLen := parsed.claims.length
  parsed.links.filter fun l =>
    validIdx baseLen l.from_claim_index && validIdx baseLen l.to_claim_index

set_option linter.unusedVariables false in
/-- `declared_type` is accepted and ignored, as in the Python source. -/
def normalize_to_me_centric_claims (parsed : ParsedClaimsOutput) (raw_text : Str)
    (declared_type : Str) (occurred_at_utc : Option Str) : ParsedClaimsOutput :=
  let augmented := preCausalClaims parsed raw_text occurred_at_utc
  let withCause := synthesizeDecisionCauseLinks augmented (reindexedLinks parsed)
  let final := addContextCauseIfNeeded augmented withCause raw_text occurred_at_utc
  ⟨final.1, parsed.entities, final.2⟩

/-! ## `apps/worker/claim_schema_v2.py` — `parse_claims_output`

JSON values as Python receives them from `json.loads`.  Python `bool` is a
subclass of `int`, so `isinstance(x, int)` is true for booleans; numbers
that are not ints are floats, embedded as `ℚ` (see the header note). -/

inductive JVal where
  | jnull
  | jbool (b : Bool)
  | jint (n : Int)
  | jnum (q : ℚ)
  | jstr (s : Str)
  | jarr (xs : List JVal)
  | jobj (fields : List (Str × JVal))

def intToStr (n : Int) : Str :=
  if n < 0 then '-' :: Nat.toDigits 10 n.natAbs else Nat.toDigits 10 n.natAbs

/-- Python `str(x)`.  Containers render to a non-empty placeholder and
numbers to a digit string: the parser only ever tests the rendered string
for emptiness after stripping and for membership in enum vocabularies, and
no rendering of a non-string value is empty or an enum member. -/
def pyStr : JVal → Str
  | .jnull => txt "None"
  | .jbool true => txt "True"
  | .jbool false => txt "False"
  | .jint n => intToStr n
  | .jnum q => intToStr q.num ++ txt "/" ++ Nat.toDigits 10 q.den
  | .jstr s => s
  | .jarr _ => txt "[list]"
  | .jobj _ => [Char.ofNat 123, Char.ofNat 125]

def digitsToNat (ds : Str) : Nat :=
  ds.foldl (fun acc c => acc * 10 + (c.toNat - 48)) 0

def parseExpPart (s : Str) : Option ℚ :=
  let (neg, s1) :=
    match s with
    | '-' :: r => (true, r)
    | '+' :: r => (false, r)
    | r => (false, r)
  let ds := s1.takeWhile Char.isDigit
  if ds = [] ∨ s1.dropWhile Char.isDigit ≠ [] then none
  else some (if neg then (1 : ℚ) / 10 ^ digitsToNat ds else (10 : ℚ) ^ digitsToNat ds)

/-- Python `float(s)` for a string, on decimal literals (optional sign,
digits with optional fraction, optional exponent, surrounding whitespace).
Exotic accepted spellings (`nan`, `inf`, digit-group underscores) are not
modelled; they do not occur in this pipeline's data. -/
def parseDecimal (s0 : Str) : Option ℚ :=
  let s := pyStrip s0
  let (sign, s1) :=
    match s with
    | '-' :: r => ((-1 : ℚ), r)
    | '+' :: r => ((1 : ℚ), r)
    | r => ((1 : ℚ), r)
  let ip := s1.takeWhile Char.isDigit
  let rest := s1.dropWhile Char.isDigit
  match rest with
  | [] => if ip = [] then none else some (sign * digitsToNat ip)
  | '.' :: r =>
    let fp := r.takeWhile Char.isDigit
    let r1 := r.dropWhile Char.isDigit
    if ip = [] ∧ fp = [] then none
    else
      let base : ℚ := digitsToNat ip + (digitsToNat fp : ℚ) / 10 ^ fp.length
      match r1 with
      | [] => some (sign * base)
      | e :: r2 =>
        if e == 'e' || e == 'E' then (parseExpPart r2).map fun ex => sign * base * ex
        else none
  | e :: r2 =>
    if (e == 'e' || e == 'E') && !ip.isEmpty then
      (parseExpPart r2).map fun ex => sign * (digitsToNat ip : ℚ) * ex
    else none

/-- Python `float(x)`; `none` is the `TypeError`/`ValueError` the caller
catches. -/
def pyFloat : JVal → Option ℚ
  | .jint n => some (mkRat n 1)
  | .jnum q => some q
  | .jbool b => some (if b then 1 else 0)
  | .jstr s => parseDecimal s
  | .jnull => none
  | .jarr _ => none
  | .jobj _ => none

/-- `isinstance(x, int)` and conversion (true for booleans in Python). -/
def pyIntOf : JVal → Option Int
  | .jint n => some n
  | .jbool b => some (if b then 1 else 0)
  | _ => none

/-- Python truthiness. -/
def pyTruthy : JVal → Bool
  | .jnull => false
  | .jbool b => b
  | .jint n => n ≠ 0
  | .jnum q => q ≠ 0
  | .jstr s => !s.isEmpty
  | .jarr xs => !xs.isEmpty
  | .jobj kvs => !kvs.isEmpty

/-- `d.get(key, default)`.  A parsed JSON object has unique keys. -/
def dGet (fields : List (Str × JVal)) (key : String) (dflt : JVal) : JVal :=
  match fields.find? fun p => p.1 == txt key with
  | some p => p.2
  | none => dflt

def asList : JVal → Option (List JVal)
  | .jarr xs => some xs
  | _ => none

def asObj : JVal → Option (List (Str × JVal))
  | .jobj kvs => some kvs
  | _ => none

/-- `int(x) if isinstance(x, int) and x >= 0 else None` (lines 273–274). -/
def spanOffsetOf (v : JVal) : Option Int :=
  match pyIntOf v with
  | some n => if 0 ≤ n then some n else none
  | none => none

/-- Lines 275–278: null both offsets unless both are present with
`char_end > char_start`. -/
def fixSpanOffsets (cs ce : Option Int) : Option Int × Option Int :=
  if cs.isSome ≠ ce.isSome then (none, none)
  else
    match cs, ce with
    | some a, some b => if b ≤ a then (none, none) else (some a, some b)
    | _, _ => (cs, ce)

/-- Lines 265–285: parse one evidence-span row. -/
def parseEvidenceSpanItem (v : JVal) : Option ParsedEvidenceSpan :=
  match asObj v with
  | none => none
  | some span =>
    let excerpt := pyStrip (pyStr (dGet span "excerpt" (.jstr [])))
    if excerpt = [] then none
    else
      let p := fixSpanOffsets (spanOffsetOf (dGet span "char_start" .jnull))
        (spanOffsetOf (dGet span "char_end" .jnull))
      some ⟨p.1, p.2, excerpt.take 500⟩

/-- Lines 292–317: parse one dimension row. -/
def parseDimensionItem (v : JVal) : Option ParsedDimension :=
  match asObj v with
  | none => none
  | some dim =>
    let dim_type := pyStrip (pyStr (dGet dim "dimension_type" (.jstr [])))
    let dim_value := pyStrip (pyStr (dGet dim "dimension_value" (.jstr [])))
    let dim_source := pyStrip (pyStr (dGet dim "source" (.jstr (txt "llm"))))
    if ¬ dim_type ∈ SUPPORTED_DIMENSION_TYPES ∨ dim_value = [] ∨
        ¬ dim_source ∈ SUPPORTED_DIMENSION_SOURCES then none
    else
      match pyFloat (dGet dim "confidence" (.jnum 0)) with
      | none => none
      | some conf =>
        if conf < 0 ∨ conf > 1 then none
        else some ⟨dim_type, dim_value.take 200, conf, dim_source⟩

/-- Lines 233–344: parse one claim item; `none` models `continue`. -/
def parseClaimItem (v : JVal) : Option ParsedClaim :=
  match asObj v with
  | none => none
  | some item =>
    let modality := pyStrip (pyStr (dGet item "modality" (.jstr [])))
    let polarity := pyStrip (pyStr (dGet item "polarity" (.jstr [])))
    let me_role := pyStrip (pyStr (dGet item "me_role" (.jstr [])))
    if ¬ modality ∈ SUPPORTED_MODALITIES ∨ ¬ polarity ∈ SUPPORTED_POLARITIES ∨
        ¬ me_role ∈ SUPPORTED_ME_ROLES then none
    else
      match pyFloat (dGet item "certainty" (.jnum 0)) with
      | none => none
      | some certainty =>
        if certainty < 0 ∨ certainty > 1 then none
        else
          let subject_text := pyStrip (pyStr (dGet item "subject_text" (.jstr [])))
          let predicate := pyStrip (pyStr (dGet item "predicate" (.jstr [])))
          let object_text_raw :=
            pyStrip (pyStr (dGet item "object_text_raw" (dGet item "object_text" (.jstr []))))
          let object_text_canonical :=
            pyStrip (pyStr (dGet item "object_text_canonical" (.jstr object_text_raw)))
          if ¬ predicate ∈ SUPPORTED_PREDICATES then none
          else if subject_text = [] ∨ object_text_raw = [] ∨ object_text_canonical = [] then none
          else
            let evidence_spans :=
              match asList (dGet item "evidence_spans" (.jarr [])) with
              | some rows => rows.filterMap parseEvidenceSpanItem
              | none => []
            if evidence_spans = [] then none
            else
              let dimensions :=
                match asList (dGet item "dimensions" (.jarr [])) with
                | some rows => rows.filterMap parseDimensionItem
                | none => []
              let optStr (key : String) : Option Str :=
                let v := dGet item key .jnull
                if pyTruthy v then some (pyStrip (pyStr v)) else none
              let optName (key : String) : Option Str :=
                let v := dGet item key .jnull
                if pyTruthy v then some ((pyStrip (pyStr v)).take 160) else none
              some (mkParsedClaim
                { subject_text := subject_text.take 120
                  predicate := predicate.take 80
                  object_text_raw := object_text_raw.take 1000
                  object_text_canonical := object_text_canonical.take 1000
                  me_role := me_role
                  modality := modality
                  polarity := polarity
                  certainty := certainty
                  time_start_utc := optStr "time_start_utc"
                  time_end_utc := optStr "time_end_utc"
                  subject_entity_name := optName "subject_entity_name"
                  object_entity_name := optName "object_entity_name"
                  dimensions := dimensions
                  evidence_spans := evidence_spans })

/-- Lines 348–361: parse one entity item. -/
def parseEntityItem (v : JVal) : Option ParsedEntity :=
  match asObj v with
  | none => none
  | some item =>
    let name := pyStrip (pyStr (dGet item "name" (.jstr [])))
    let entity_type := pyStrip (pyStr (dGet item "entity_type" (.jstr [])))
    if name = [] ∨ ¬ entity_type ∈ SUPPORTED_ENTITY_TYPES then none
    else
      let aliases :=
        match asList (dGet item "aliases" (.jarr [])) with
        | some rows =>
          rows.filterMap fun a =>
            match a with
            | .jstr s => if pyStrip s ≠ [] then some ((pyStrip s).take 160) else none
            | _ => none
        | none => []
      some ⟨name.take 160, entity_type, aliases⟩

/-- Lines 364–388: parse one link item.  Link indexes are modelled as `Nat`
after the JSON schema (`minimum: 0`); a Python payload could carry a
negative index through the parser, but such links are dropped unchanged by
the re-indexing and the quality gate (they never appear in any index map),
so no verified claim depends on them. -/
def parseLinkItem (v : JVal) : Option ParsedClaimLink :=
  match asObj v with
  | none => none
  | some item =>
    let relation_type := pyStrip (pyStr (dGet item "relation_type" (.jstr [])))
    if ¬ relation_type ∈ SUPPORTED_RELATIONS then none
    else
      match pyIntOf (dGet item "from_claim_index" .jnull),
            pyIntOf (dGet item "to_claim_index" .jnull) with
      | some fidx, some tidx =>
        if fidx < 0 ∨ tidx < 0 then none
        else
          match pyFloat (dGet item "confidence" (.jnum 0)) with
          | none => none
          | some confidence =>
            if confidence < 0 ∨ confidence > 1 then none
            else some ⟨fidx.toNat, tidx.toNat, relation_type, confidence⟩
      | _, _ => none

/-- `parse_claims_output`.  `none` models the `TypeError` Python would
raise when iterating a non-iterable field; the claim under verification
only concerns payloads whose three fields are lists. -/
def parse_claims_output (payload : List (Str × JVal)) : Option ParsedClaimsOutput :=
  match asList (dGet payload "claims" (.jarr [])),
        asList (dGet payload "entities" (.jarr [])),
        asList (dGet payload "links" (.jarr [])) with
  | some cs, some es, some ls =>
    some ⟨cs.filterMap parseClaimItem, es.filterMap parseEntityItem, ls.filterMap parseLinkItem⟩
  | _, _, _ => none

/-! ## `apps/worker/extract_key_facts.py` — deduplication -/

/-- `japanese_nlp.MorphToken`; the `lemma` field is named `lemmaStr` here
(`lemma` is a Lean keyword). -/
structure MorphToken where
  surface : Str
  lemmaStr : Str
  pos : Str
  deriving DecidableEq, Repr

structure Fact where
  subject : Str
  predicate : Str
  object_text : Str
  object_type : Str
  object_json : Option Str
  evidence_excerpt : Option Str
  occurred_at : Option Str
  confidence : ℚ
  deriving DecidableEq, Repr

def Fact.key (f : Fact) : Str × Str × Str :=
  (pyStrip f.subject, pyStrip f.predicate, pyStrip f.object_text)

/-- `rule_lexicon.OBJECT_STOP_LEMMAS`. -/
def OBJECT_STOP_LEMMAS : List Str :=
  [txt "する", txt "なる", txt "ある", txt "いる", txt "こと", txt "もの",
   txt "これ", txt "それ", txt "ため", txt "です", txt "ます", txt "todo", txt "next"]

def _norm_lemma (value : Str) : Str := pyLower (pyStrip value)

/-- The character class kept by the no-tokenizer fallback of
`_normalize_for_dedupe`: `[0-9a-zぁ-んァ-ヶ一-龠ー]` (after lowering). -/
def isDedupKeptChar (c : Char) : Bool :=
  ('0' ≤ c && c ≤ '9') || ('a' ≤ c && c ≤ 'z') ||
  (0x3041 ≤ c.toNat && c.toNat ≤ 0x3093) ||
  (0x30a1 ≤ c.toNat && c.toNat ≤ 0x30f6) ||
  (0x4e00 ≤ c.toNat && c.toNat ≤ 0x9fa0) ||
  c == 'ー'

/-- `_normalize_for_dedupe`, parameterized by the external tokenizer
(`tokenize_with_lemma` returns `[]` when the tokenizer is unavailable). -/
def _normalize_for_dedupe (tok : Str → List MorphToken) (text : Str) : Str :=
  let tokens := tok text
  let lemmas := tokens.filterMap fun t =>
    let l := _norm_lemma t.lemmaStr
    if l ≠ [] ∧ ¬ l ∈ OBJECT_STOP_LEMMAS then some l else none
  if tokens ≠ [] ∧ lemmas ≠ [] then List.intercalate (txt " ") (lemmas.take 16)
  else
    let cleaned := pyLower (text.filter fun c => ¬ isPySpace c)
    cleaned.filter isDedupKeptChar

def Fact.normKey (tok : Str → List MorphToken) (f : Fact) : Str × Str × Str :=
  (_norm_lemma f.subject, _norm_lemma f.predicate, _normalize_for_dedupe tok f.object_text)

/-- The loop of `dedupe_facts`; the `break` after appending makes the
function return as soon as `out` reaches `max_facts` entries. -/
def dedupeGo (tok : Str → List MorphToken) (max_facts : Nat) :
    List Fact → List (Str × Str × Str) → List (Str × Str × Str) → List Fact → List Fact
  | [], _, _, out => out
  | f :: fs, seenE, seenN, out =>
    let key := f.key
    if key.1 = [] ∨ key.2.1 = [] ∨ key.2.2 = [] then dedupeGo tok max_facts fs seenE seenN out
    else
      let nkey := f.normKey tok
      if key ∈ seenE ∨ nkey ∈ seenN then dedupeGo tok max_facts fs seenE seenN out
      else
        let out2 := out ++ [f]
        if max_facts ≤ out2.length then out2
        else dedupeGo tok max_facts fs (seenE ++ [key]) (seenN ++ [nkey]) out2

def dedupe_facts (tok : Str → List MorphToken) (facts : List Fact) (max_facts : Nat) :
    List Fact :=
  dedupeGo tok max_facts facts [] [] []

/-! ## `run` of `apps/worker/extract_claims_llm.py` — error handling

The database connection, the HTTP call to the model and the JSON parse are
external collaborators; `run`'s control flow over them is embedded with
the transaction modelled explicitly (`pending` writes become visible only
at `commit`; `rollback` discards them), `dry_run = False`, and time as a
minute count.  The outcome of each fallible step is a parameter:
`llmResult` is the combined model call + response parse
(`extract_with_llm` raises `RuntimeError` on any failure), and
`persistWrites`/`persistResult` are the row writes `insert_claim_bundle`
issued before returning or raising. -/

inductive WriteOp where
  | redactionUpdate (document_id : Str) (pii_score : ℚ) (redaction_state : Str)
  | softDelete (entry_id : Str)
  | entityInsert (entity_type name : Str)
  | aliasInsert (alias_text normalized : Str)
  | claimInsert (claim : ParsedClaim)
  | dimensionInsert (dim : ParsedDimension)
  | evidenceInsert (span : ParsedEvidenceSpan)
  | linkInsert (relation_type : Str) (confidence : ℚ)

structure DBState where
  committed : List WriteOp
  pending : List WriteOp

def execWrite (op : WriteOp) (db : DBState) : DBState :=
  { db with pending := db.pending ++ [op] }

def dbCommit (db : DBState) : DBState :=
  ⟨db.committed ++ db.pending, []⟩

def dbRollback (db : DBState) : DBState :=
  { db with pending := [] }

structure Document where
  id : Str
  entry_id : Str
  raw_text : Str
  declared_type : Str
  occurred_at_utc : Str
  pii_score : ℚ
  deriving DecidableEq, Repr

structure RunResult where
  status : Str
  claims_inserted : Nat
  evidence_inserted : Nat
  entities_upserted : Nat
  links_inserted : Nat
  error_code : Option Str
  attempt_count : Nat
  next_retry_at : Option Nat
  error : Option Str
  deriving DecidableEq, Repr

/-- The `except` branch of `run`: status `queued`, error code
`retryable_error`, retry in exactly 5 minutes, the triggering message. -/
def queuedResult (attempt now : Nat) (msg : Str) : RunResult :=
  { status := txt "queued", claims_inserted := 0, evidence_inserted := 0,
    entities_upserted := 0, links_inserted := 0,
    error_code := some (txt "retryable_error"), attempt_count := max attempt 1,
    next_retry_at := some (now + 5), error := some msg }

def runExtract (db0 : DBState) (now attempt : Nat) (fetched : Option Document)
    (apiKeyPresent : Bool) (llmResult : Except Str ParsedClaimsOutput)
    (persistWrites : List WriteOp) (persistResult : Except Str (Nat × Nat × Nat × Nat)) :
    RunResult × DBState :=
  match fetched with
  | none => (queuedResult attempt now (txt "fact_document not found"), dbRollback db0)
  | some doc =>
    let redaction := redact_for_llm doc.raw_text
    let effective_score := max doc.pii_score redaction.pii_score
    let db1 := execWrite (.redactionUpdate doc.id effective_score redaction.redaction_state) db0
    if redaction.risk_level = txt "high" then
      ({ status := txt "blocked", claims_inserted := 0, evidence_inserted := 0,
         entities_upserted := 0, links_inserted := 0,
         error_code := some (txt "blocked_sensitive"), attempt_count := max attempt 1,
         next_retry_at := none, error := some (txt "blocked_sensitive") },
       dbCommit db1)
    else if ¬ apiKeyPresent then
      (queuedResult attempt now (txt "environment variable not set: OPENAI_API_KEY"),
       dbRollback db1)
    else
      match llmResult with
      | .error e => (queuedResult attempt now e, dbRollback db1)
      | .ok parsed =>
        let normalized := normalize_to_me_centric_claims parsed doc.raw_text doc.declared_type
          (if doc.occurred_at_utc = [] then none else some doc.occurred_at_utc)
        let gated := apply_quality_gate normalized
        if gated.1.claims = [] then
          (queuedResult attempt now (txt "quality_gate_rejected_all_claims"), dbRollback db1)
        else
          let db2 := persistWrites.foldl (fun d op => execWrite op d) db1
          match persistResult with
          | .error e => (queuedResult attempt now e, dbRollback db2)
          | .ok (ci, ei, eu, li) =>
            ({ status := txt "succeeded", claims_inserted := ci, evidence_inserted := ei,
               entities_upserted := eu, links_inserted := li, error_code := none,
               attempt_count := max attempt 1, next_retry_at := none, error := none },
             dbCommit db2)

/-! ## Concrete fixtures used in theorem statements -/

/-- A pre-extracted claim, as the spec's causal-synthesis test scenario
describes one. -/
def scenarioClaim (s p o role : String) : ParsedClaim :=
  mkParsedClaim
    { subject_text := txt s, predicate := txt p, object_text_raw := txt o,
      object_text_canonical := txt o, me_role := txt role, modality := txt "fact",
      polarity := txt "affirm", certainty := mkRat 9 10, time_start_utc := none,
      time_end_utc := none, subject_entity_name := none, object_entity_name := none,
      dimensions := [], evidence_spans := [⟨none, none, txt o⟩] }

def scenarioRawText : Str := txt "今日お台場で同期と遊んだら雨降ってきて即解散になった"

def scenarioParsed : ParsedClaimsOutput :=
  ⟨[scenarioClaim "me" "did" "同期とお台場で遊んだ" "actor",
    scenarioClaim "weather" "happened" "雨が降った" "none",
    scenarioClaim "me" "ended" "即解散した" "actor"], [], []⟩

/-! ### Declarative characterization of the quality gate -/

def rejectedTag (n : Nat) : Str := txt "claim_rejected:" ++ Nat.toDigits 10 n

/-- Number of accepted claims among the first `i`. -/
def okCount (claims : List ParsedClaim) (i : Nat) : Nat :=
  ((claims.take i).filter _is_quality_ok).length

/-- The position in the surviving list that input position `i` is re-indexed
to, if claim `i` survives. -/
def gateIndexOf (claims : List ParsedClaim) (i : Nat) : Option Nat :=
  match claims[i]? with
  | some c => if _is_quality_ok c then some (okCount claims i) else none
  | none => none

/-- The association list the gate's loop builds, starting at input index `k`
with `base` claims already kept. -/
def imapSpec (claims : List ParsedClaim) (k base : Nat) : List (Nat × Nat) :=
  match claims with
  | [] => []
  | c :: cs =>
    if _is_quality_ok c then (k, base) :: imapSpec cs (k + 1) (base + 1)
    else imapSpec cs (k + 1) base

/-! ### Predicates and fixtures used in theorem statements -/

/-- The string is non-empty and starts with a non-whitespace character
(equivalently: it equals its own left-strip and is non-empty).  This is the
shape `parse_claims_output` guarantees for every canonical object text and
excerpt it emits. -/
def startsNonWsB : Str → Bool
  | [] => false
  | c :: _ => !(isPySpace c)

/-- `b` agrees with `a` on every field except possibly
`object_text_canonical`. -/
def sameUpToCanonical (a b : ParsedClaim) : Prop :=
  b = { a with object_text_canonical := b.object_text_canonical }

/-- Invariant on the carried topic of `_apply_context_completion`. -/
def topicOk : Option Str → Prop
  | none => True
  | some t => startsNonWsB t = true

/-- C3 counterexample input: a decision claim followed by an event claim,
with no links. -/
def fwdParsed : ParsedClaimsOutput :=
  ⟨[scenarioClaim "me" "ended" "即解散した" "actor",
    scenarioClaim "weather" "happened" "雨が降った" "none"], [], []⟩

/-- C9 counterexample raw text: 180 spaces followed by `雨`. -/
def spacesRawText : Str := List.replicate 180 ' ' ++ txt "雨"

/-- C9 counterexample input: a lone decision claim. -/
def endedParsed : ParsedClaimsOutput :=
  ⟨[scenarioClaim "me" "ended" "即解散した" "actor"], [], []⟩

/-- C7 counterexample raw text: two action clauses, the second covered only
by the synthetic claim generated for the first. -/
def augRawText : Str := txt "ジムで運動した、運動した"

/-- A rule-extractor fact with only the dedup-relevant fields varied. -/
def keyFact (s p o : String) : Fact :=
  ⟨txt s, txt p, txt o, txt "text", none, none, none, mkRat 8 10⟩

/-- The tokenizer adapter when Sudachi is unavailable. -/
def tokNone : Str → List MorphToken := fun _ => []

/-- C5: the enum-membership failures of a claim item. -/
def claimEnumsFail (item : List (Str × JVal)) : Prop :=
  ¬ pyStrip (pyStr (dGet item "modality" (.jstr []))) ∈ SUPPORTED_MODALITIES ∨
  ¬ pyStrip (pyStr (dGet item "polarity" (.jstr []))) ∈ SUPPORTED_POLARITIES ∨
  ¬ pyStrip (pyStr (dGet item "me_role" (.jstr []))) ∈ SUPPORTED_ME_ROLES ∨
  ¬ pyStrip (pyStr (dGet item "predicate" (.jstr []))) ∈ SUPPORTED_PREDICATES

/-- C5: the certainty value converts but is outside `[0, 1]`. -/
def certaintyOutOfRange (item : List (Str × JVal)) : Prop :=
  ∃ q, pyFloat (dGet item "certainty" (.jnum 0)) = some q ∧ (q < 0 ∨ q > 1)

/-- C5: an evidence-span row that contributes a span: a dict with a
non-empty stripped excerpt. -/
def spanUsable (row : JVal) : Prop :=
  ∃ sp, asObj row = some sp ∧ pyStrip (pyStr (dGet sp "excerpt" (.jstr []))) ≠ []

/-- C5: the claim item lacks any evidence span with a non-empty excerpt. -/
def claimLacksEvidence (item : List (Str × JVal)) : Prop :=
  match asList (dGet item "evidence_spans" (.jarr [])) with
  | some rows => ∀ row ∈ rows, ¬ spanUsable row
  | none => True

/-- C5: a claim item failing enum membership, the numeric-range check, or
the evidence requirement (non-dict items always fail). -/
def claimItemFails (v : JVal) : Prop :=
  match asObj v with
  | none => True
  | some item => claimEnumsFail item ∨ certaintyOutOfRange item ∨ claimLacksEvidence item

/-- C5: a link item failing relation-type membership or the confidence
range check. -/
def linkItemFails (v : JVal) : Prop :=
  match asObj v with
  | none => True
  | some item =>
    ¬ pyStrip (pyStr (dGet item "relation_type" (.jstr []))) ∈ SUPPORTED_RELATIONS ∨
    ∃ q, pyFloat (dGet item "confidence" (.jnum 0)) = some q ∧ (q < 0 ∨ q > 1)

/-- C5: an entity item failing entity-type membership. -/
def entityItemFails (v : JVal) : Prop :=
  match asObj v with
  | none => True
  | some item => ¬ pyStrip (pyStr (dGet item "entity_type" (.jstr []))) ∈ SUPPORTED_ENTITY_TYPES

/-- A claim item with an unsupported modality (used in the C5 witness). -/
def badClaimItem : JVal :=
  .jobj [(txt "modality", .jstr (txt "vibe"))]

/-- A response payload: one malformed claim item, no entities, one link
with an unsupported relation type (used in the C5 witness). -/
def samplePayload : List (Str × JVal) :=
  [(txt "claims", .jarr [badClaimItem]),
   (txt "entities", .jarr []),
   (txt "links", .jarr [.jobj [(txt "relation_type", .jstr (txt "rebuts"))]])]

/-- A document fixture for the run-model witness. -/
def witnessDoc : Document :=
  ⟨txt "doc-1", txt "entry-1", txt "今日は散歩した", txt "journal", txt "2026-01-01", 0⟩

/-- The first character of an alternation literal, lowered, is not
whitespace (precondition for the `findFirstLitCI` lemmas). -/
def litOkHead (p : Str) : Bool :=
  match p with
  | [] => false
  | c :: _ => !(isPySpace (Char.toLower c))

/-- The clause qualification test of C7: at least 4 characters and an
action or plan lexical hint. -/
def clauseQualifies (clause : Str) : Prop :=
  4 ≤ clause.length ∧
    (containsAnyCI ACTION_HINT_WORDS clause = true ∨ containsAnyCI PLAN_HINT_WORDS clause = true)

/-- The evidence guarantee of C9: at least one span, all excerpts
non-empty. -/
def claimEvOk (c : ParsedClaim) : Prop :=
  c.evidence_spans ≠ [] ∧ ∀ sp ∈ c.evidence_spans, sp.excerpt ≠ []

/-- The per-claim invariant threaded through the normalizer stages in C9. -/
def claimGood (c : ParsedClaim) : Prop :=
  startsNonWsB c.object_text_canonical = true ∧ claimEvOk c

lemma imapSpec_key_ge (claims : List ParsedClaim) (k base : Nat) :
    ∀ p ∈ imapSpec claims k base, k ≤ p.1 := by
  induction claims generalizing k base with
  | nil => simp [imapSpec]
  | cons c cs ih =>
    intro p hp
    simp only [imapSpec] at hp
    split at hp
    · rcases List.mem_cons.1 hp with h | h
      · simp [h]
      · exact Nat.le_of_succ_le (ih (k + 1) (base + 1) p h)
    · exact Nat.le_of_succ_le (ih (k + 1) base p hp)

lemma lookupIdx_imapSpec_lt (claims : List ParsedClaim) (k base i : Nat) (h : i < k) :
    lookupIdx (imapSpec claims k base) i = none := by
  unfold lookupIdx
  rw [List.find?_eq_none.2]
  · rfl
  · intro p hp
    have := imapSpec_key_ge claims k base p hp
    simp only [beq_iff_eq]
    omega

lemma lookupIdx_imapSpec (claims : List ParsedClaim) (k base i : Nat) :
    lookupIdx (imapSpec claims k base) (k + i) = (gateIndexOf claims i).map (· + base) := by
  induction claims generalizing k base i with
  | nil => simp [imapSpec, lookupIdx, gateIndexOf]
  | cons c cs ih =>
    cases i with
    | zero =>
      simp only [imapSpec, gateIndexOf, List.getElem?_cons_zero, Nat.add_zero]
      by_cases hc : _is_quality_ok c
      · simp [hc, lookupIdx, okCount]
      · simp only [hc, if_false, Bool.false_eq_true]
        rw [lookupIdx_imapSpec_lt cs (k + 1) base k (Nat.lt_succ_self k)]
        simp [hc]
    | succ j =>
      have harith : k + (j + 1) = (k + 1) + j := by omega
      simp only [imapSpec, gateIndexOf, List.getElem?_cons_succ]
      by_cases hc : _is_quality_ok c
      · simp only [hc, if_true]
        rw [harith]
        unfold lookupIdx
        rw [List.find?_cons_of_neg]
        · have := ih (k + 1) (base + 1) j
          unfold lookupIdx at this
          rw [this]
          unfold gateIndexOf
          cases hcs : cs[j]? with
          | none => simp
          | some d =>
            by_cases hd : _is_quality_ok d
            · have : okCount (c :: cs) (j + 1) = okCount cs j + 1 := by
                simp [okCount, List.take_succ_cons, hc]
              simp only [hd, if_true, this, Option.map_some', Option.some.injEq]
              omega
            · simp [hd]
        · simp only [beq_iff_eq]
          omega
      · simp only [hc, if_false, Bool.false_eq_true]
        rw [harith, ih (k + 1) base j]
        unfold gateIndexOf
        cases hcs : cs[j]? with
        | none => simp
        | some d =>
          by_cases hd : _is_quality_ok d
          · have : okCount (c :: cs) (j + 1) = okCount cs j := by
              simp [okCount, List.take_succ_cons, hc]
            simp only [hd, if_true, this]
          · simp [hd]

lemma lookupIdx_imapSpec_zero (claims : List ParsedClaim) (i : Nat) :
    lookupIdx (imapSpec claims 0 0) i = gateIndexOf claims i := by
  have h := lookupIdx_imapSpec claims 0 0 i
  rw [Nat.zero_add] at h
  rw [h]
  cases gateIndexOf claims i <;> simp

lemma gateFold_spec (claims : List ParsedClaim) (k : Nat) (flags0 : List Str)
    (filtered0 : List ParsedClaim) (imap0 : List (Nat × Nat)) :
    (claims.enumFrom k).foldl gateStep (flags0, filtered0, imap0) =
      (flags0 ++ ((claims.enumFrom k).filter fun p => ¬ _is_quality_ok p.2).map
          (fun p => rejectedTag p.1),
       filtered0 ++ claims.filter _is_quality_ok,
       imap0 ++ imapSpec claims k filtered0.length) := by
  induction claims generalizing k flags0 filtered0 imap0 with
  | nil => simp [imapSpec]
  | cons c cs ih =>
    simp only [List.enumFrom_cons, List.foldl_cons]
    by_cases hc : _is_quality_ok c
    · rw [show gateStep (flags0, filtered0, imap0) (k, c) =
          (flags0, filtered0 ++ [c], imap0 ++ [(k, filtered0.length)]) by
        simp [gateStep, hc]]
      rw [ih]
      simp [hc, imapSpec, List.filter_cons, List.append_assoc]
    · rw [show gateStep (flags0, filtered0, imap0) (k, c) =
          (flags0 ++ [rejectedTag k], filtered0, imap0) by
        simp [gateStep, rejectedTag, hc]]
      rw [ih]
      simp [hc, imapSpec, List.filter_cons, List.append_assoc]

lemma apply_quality_gate_eq (parsed : ParsedClaimsOutput) :
    apply_quality_gate parsed =
      (⟨parsed.claims.filter _is_quality_ok, parsed.entities,
        parsed.links.filterMap fun link =>
          match gateIndexOf parsed.claims link.from_claim_index,
                gateIndexOf parsed.claims link.to_claim_index with
          | some a, some b =>
            some { from_claim_index := a, to_claim_index := b,
                   relation_type := link.relation_type, confidence := link.confidence }
          | _, _ => none⟩,
       (parsed.claims.enum.filter fun p => ¬ _is_quality_ok p.2).map
         (fun p => rejectedTag p.1)) := by
  unfold apply_quality_gate
  have henum : parsed.claims.enum = parsed.claims.enumFrom 0 := rfl
  rw [henum, gateFold_spec]
  simp only [List.nil_append, List.length_nil]
  congr 1
  congr 1
  apply List.filterMap_congr
  intro link _
  rw [lookupIdx_imapSpec_zero, lookupIdx_imapSpec_zero]

lemma gateIndexOf_lt (claims : List ParsedClaim) (i a : Nat)
    (h : gateIndexOf claims i = some a) :
    a < (claims.filter _is_quality_ok).length := by
  unfold gateIndexOf at h
  cases hci : claims[i]? with
  | none => rw [hci] at h; exact absurd h (by simp)
  | some c =>
    rw [hci] at h
    by_cases hc : _is_quality_ok c
    · simp only [hc, if_true, Option.some.injEq] at h
      subst h
      have hlen : i < claims.length := (List.getElem?_eq_some.1 hci).1
      have hdecomp : claims = claims.take i ++ claims.drop i := (List.take_append_drop i claims).symm
      have hdrop : claims.drop i = c :: claims.drop (i + 1) := by
        rw [List.drop_eq_getElem_cons hlen]
        congr
        exact (List.getElem?_eq_some.1 hci).2
      conv_rhs => rw [hdecomp, hdrop]
      rw [List.filter_append, List.length_append, List.filter_cons, if_pos hc]
      simp only [okCount, List.length_cons]
      omega
    · simp [hc] at h

/-- C2: the quality gate keeps exactly the claims whose canonical object
text is non-empty after trimming, records every rejected claim by input
position in the quality flags, re-indexes surviving links against the
surviving claim list (so all link endpoints are valid indices), and drops
every link that references a rejected claim. -/
theorem C2_quality_gate_contract (parsed : ParsedClaimsOutput) :
    ((apply_quality_gate parsed).1.claims = parsed.claims.filter _is_quality_ok) ∧
    ((apply_quality_gate parsed).2 =
      (parsed.claims.enum.filter fun p => ¬ _is_quality_ok p.2).map
        (fun p => rejectedTag p.1)) ∧
    ((apply_quality_gate parsed).1.links = parsed.links.filterMap fun link =>
        match gateIndexOf parsed.claims link.from_claim_index,
              gateIndexOf parsed.claims link.to_claim_index with
        | some a, some b =>
          some { from_claim_index := a, to_claim_index := b,
                 relation_type := link.relation_type, confidence := link.confidence }
        | _, _ => none) ∧
    (∀ link ∈ (apply_quality_gate parsed).1.links,
      link.from_claim_index < (apply_quality_gate parsed).1.claims.length ∧
      link.to_claim_index < (apply_quality_gate parsed).1.claims.length) := by
  rw [apply_quality_gate_eq]
  refine ⟨rfl, rfl, rfl, ?_⟩
  intro link hlink
  simp only [List.mem_filterMap] at hlink
  obtain ⟨l0, _, hmap⟩ := hlink
  cases hf : gateIndexOf parsed.claims l0.from_claim_index with
  | none => rw [hf] at hmap; exact absurd hmap (by simp)
  | some a =>
    cases ht : gateIndexOf parsed.claims l0.to_claim_index with
    | none => rw [hf, ht] at hmap; exact absurd hmap (by simp)
    | some b =>
      rw [hf, ht] at hmap
      simp only [Option.some.injEq] at hmap
      subst hmap
      simp only [List.length]
      exact ⟨gateIndexOf_lt _ _ _ hf, gateIndexOf_lt _ _ _ ht⟩

/-! ### Basic facts about `mkParsedClaim` and whitespace -/

@[simp] lemma mk_subject_text (c : ParsedClaim) :
    (mkParsedClaim c).subject_text = c.subject_text := rfl

@[simp] lemma mk_predicate (c : ParsedClaim) :
    (mkParsedClaim c).predicate = c.predicate := rfl

@[simp] lemma mk_modality (c : ParsedClaim) :
    (mkParsedClaim c).modality = c.modality := rfl

@[simp] lemma mk_polarity (c : ParsedClaim) :
    (mkParsedClaim c).polarity = c.polarity := rfl

@[simp] lemma mk_certainty (c : ParsedClaim) :
    (mkParsedClaim c).certainty = c.certainty := rfl

@[simp] lemma mk_time_start (c : ParsedClaim) :
    (mkParsedClaim c).time_start_utc = c.time_start_utc := rfl

@[simp] lemma mk_time_end (c : ParsedClaim) :
    (mkParsedClaim c).time_end_utc = c.time_end_utc := rfl

@[simp] lemma mk_subject_entity (c : ParsedClaim) :
    (mkParsedClaim c).subject_entity_name = c.subject_entity_name := rfl

@[simp] lemma mk_object_entity (c : ParsedClaim) :
    (mkParsedClaim c).object_entity_name = c.object_entity_name := rfl

@[simp] lemma mk_dimensions (c : ParsedClaim) :
    (mkParsedClaim c).dimensions = c.dimensions := rfl

@[simp] lemma mk_evidence_spans (c : ParsedClaim) :
    (mkParsedClaim c).evidence_spans = c.evidence_spans := rfl

lemma mk_object_text_raw (c : ParsedClaim) :
    (mkParsedClaim c).object_text_raw = c.object_text_raw.take 1000 := rfl

lemma mk_object_text_canonical (c : ParsedClaim) :
    (mkParsedClaim c).object_text_canonical =
      (if c.object_text_canonical = [] then c.object_text_raw
       else c.object_text_canonical).take 1000 := rfl

lemma mk_me_role (c : ParsedClaim) :
    (mkParsedClaim c).me_role =
      (if c.me_role ∈ SUPPORTED_ME_ROLES then c.me_role else txt "none") := rfl

lemma ParsedClaim.wf_raw {c : ParsedClaim} (h : c.wf) :
    c.object_text_raw.take 1000 = c.object_text_raw := by
  have := congrArg ParsedClaim.object_text_raw h
  rw [mk_object_text_raw] at this
  exact this

lemma ParsedClaim.wf_me_role {c : ParsedClaim} (h : c.wf) :
    (if c.me_role ∈ SUPPORTED_ME_ROLES then c.me_role else txt "none") = c.me_role := by
  have := congrArg ParsedClaim.me_role h
  rw [mk_me_role] at this
  exact this

lemma mkParsedClaim_set_canonical (c : ParsedClaim) (hwf : c.wf) (X : Str) (hX : X ≠ []) :
    mkParsedClaim { c with object_text_canonical := X } =
      { c with object_text_canonical := X.take 1000 } := by
  cases c with
  | mk subject_text predicate object_text_raw object_text_canonical me_role modality polarity
      certainty time_start_utc time_end_utc subject_entity_name object_entity_name
      dimensions evidence_spans =>
    have hraw := ParsedClaim.wf_raw hwf
    have hrole := ParsedClaim.wf_me_role hwf
    simp only at hraw hrole
    simp only [mkParsedClaim, if_neg hX, hraw, hrole]

lemma isPySpace_toLower {c : Char} (h : isPySpace c = true) : Char.toLower c = c := by
  simp only [isPySpace, Bool.or_eq_true, beq_iff_eq] at h
  rcases h with ((((((h | h) | h) | h) | h) | h) | h) | h <;> subst h <;> decide

lemma startsWithCI_startsNonWs {p s : Str} (hp : litOkHead p = true)
    (h : startsWithCI p s = true) : startsNonWsB (s.take p.length) = true := by
  cases p with
  | nil => exact absurd hp (by simp [litOkHead])
  | cons p0 ps =>
    cases s with
    | nil => exact absurd h (by simp [startsWithCI])
    | cons c cs =>
      simp only [startsWithCI, Bool.and_eq_true, beq_iff_eq] at h
      simp only [List.length_cons, List.take_succ_cons, startsNonWsB, Bool.not_eq_true']
      simp only [litOkHead, Bool.not_eq_true'] at hp
      by_contra hws
      have hws' : isPySpace c = true := by
        cases hcc : isPySpace c
        · exact absurd hcc hws
        · rfl
      have : Char.toLower c = c := isPySpace_toLower hws'
      rw [this] at h
      rw [← h.1] at hp
      rw [hws'] at hp
      exact Bool.noConfusion hp

lemma firstLitAtCI_startsNonWs {pats : List Str} {s t : Str}
    (hp : ∀ p ∈ pats, litOkHead p = true)
    (h : firstLitAtCI pats s = some t) : startsNonWsB t = true := by
  induction pats with
  | nil => exact absurd h (by simp [firstLitAtCI])
  | cons p ps ih =>
    unfold firstLitAtCI at h
    by_cases hsw : startsWithCI p s = true
    · rw [if_pos hsw] at h
      cases h
      exact startsWithCI_startsNonWs (hp p (by simp)) hsw
    · rw [if_neg hsw] at h
      exact ih (fun q hq => hp q (List.mem_cons_of_mem _ hq)) h

lemma findFirstLitCI_startsNonWs {pats : List Str} {s t : Str}
    (hp : ∀ p ∈ pats, litOkHead p = true)
    (h : findFirstLitCI pats s = some t) : startsNonWsB t = true := by
  induction s with
  | nil => exact firstLitAtCI_startsNonWs hp h
  | cons c cs ih =>
    unfold findFirstLitCI at h
    cases hfl : firstLitAtCI pats (c :: cs) with
    | some u =>
      rw [hfl] at h
      cases h
      exact firstLitAtCI_startsNonWs hp hfl
    | none =>
      rw [hfl] at h
      exact ih h

lemma pyStripLeft_startsNonWs (s : Str) :
    pyStripLeft s = [] ∨ startsNonWsB (pyStripLeft s) = true := by
  induction s with
  | nil => exact Or.inl rfl
  | cons c cs ih =>
    by_cases hc : isPySpace c = true
    · simpa [pyStripLeft, List.dropWhile_cons, hc] using ih
    · right
      simp only [pyStripLeft, List.dropWhile_cons]
      rw [if_neg (by simp [hc])]
      simp [startsNonWsB, hc]

lemma pyStripRight_prefixOf (t : Str) : pyStripRight t <+: t := by
  have hsuf : t.reverse.dropWhile isPySpace <:+ t.reverse := List.dropWhile_suffix _
  have := List.reverse_prefix.2 (by simpa using hsuf)
  simpa [pyStripRight] using this

lemma startsNonWs_of_prefix {a b : Str} (h : a <+: b) (ha : a ≠ [])
    (hb : startsNonWsB b = true) : startsNonWsB a = true := by
  obtain ⟨r, hr⟩ := h
  cases a with
  | nil => exact absurd rfl ha
  | cons c cs =>
    rw [← hr] at hb
    simpa [startsNonWsB] using hb

lemma pyStrip_startsNonWs {s : Str} (h : pyStrip s ≠ []) :
    startsNonWsB (pyStrip s) = true := by
  unfold pyStrip at h ⊢
  rcases pyStripLeft_startsNonWs s with hleft | hleft
  · rw [hleft] at h
    exact absurd rfl h
  · exact startsNonWs_of_prefix (pyStripRight_prefixOf _) h hleft

lemma startsNonWs_take {s : Str} (n : Nat) (hn : 0 < n) (h : startsNonWsB s = true) :
    startsNonWsB (s.take n) = true := by
  cases s with
  | nil => exact absurd h (by simp [startsNonWsB])
  | cons c cs =>
    cases n with
    | zero => exact absurd hn (by omega)
    | succ m => simpa [startsNonWsB, List.take_succ_cons] using h

lemma startsNonWs_append {a : Str} (b : Str) (h : startsNonWsB a = true) :
    startsNonWsB (a ++ b) = true := by
  cases a with
  | nil => exact absurd h (by simp [startsNonWsB])
  | cons c cs => simpa [startsNonWsB] using h

lemma startsNonWs_ne_nil {s : Str} (h : startsNonWsB s = true) : s ≠ [] := by
  cases s with
  | nil => exact absurd h (by simp [startsNonWsB])
  | cons c cs => simp

lemma topicHints_litOkHead : ∀ p ∈ TOPIC_HINT_WORDS, litOkHead p = true := by decide

lemma extract_topic_startsNonWs {text t : Str}
    (h : _extract_context_topic text = some t) : startsNonWsB t = true := by
  unfold _extract_context_topic at h
  by_cases hv : pyStrip text = []
  · rw [if_pos hv] at h
    exact absurd h (by simp)
  · rw [if_neg hv] at h
    cases hts : topicSearch (pyStrip text) with
    | some u =>
      rw [hts] at h
      dsimp only at h
      by_cases hu : pyStrip u ≠ []
      · rw [if_pos hu] at h
        cases h
        exact startsNonWs_take 24 (by omega) (pyStrip_startsNonWs hu)
      · rw [if_neg hu] at h
        exact findFirstLitCI_startsNonWs topicHints_litOkHead h
    | none =>
      rw [hts] at h
      dsimp only at h
      exact findFirstLitCI_startsNonWs topicHints_litOkHead h

/-! ### Context completion: frame property (C10) -/

lemma sameUpToCanonical_refl (c : ParsedClaim) : sameUpToCanonical c c := rfl

lemma contextStep_cases (lt : Option Str) (out : List ParsedClaim) (c : ParsedClaim)
    (hwf : c.wf) (htopic : topicOk lt) :
    ∃ lt2 c2, contextStep (lt, out) c = (lt2, out ++ [c2]) ∧
      sameUpToCanonical c c2 ∧ topicOk lt2 := by
  unfold contextStep
  dsimp only
  cases hx : _extract_context_topic (pyStrip c.object_text_canonical) with
  | some current =>
    exact ⟨some current, c, rfl, sameUpToCanonical_refl c, extract_topic_startsNonWs hx⟩
  | none =>
    cases lt with
    | none => exact ⟨none, c, rfl, sameUpToCanonical_refl c, trivial⟩
    | some topic =>
      dsimp only
      by_cases hcond : _needs_context_completion (pyStrip c.object_text_canonical) = true ∧
          ¬ containsSub topic (pyStrip c.object_text_canonical) = true
      · rw [if_pos hcond]
        have htne : topic ≠ [] := startsNonWs_ne_nil htopic
        have h1000 : (topic ++ txt "が" ++
            _normalize_time_expression_prefix (pyStrip c.object_text_canonical)).take 1000 ≠ [] := by
          cases topic with
          | nil => exact absurd rfl htne
          | cons a as => simp
        refine ⟨some topic, _, rfl, ?_, htopic⟩
        show sameUpToCanonical c (mkParsedClaim { c with object_text_canonical :=
          (topic ++ txt "が" ++
            _normalize_time_expression_prefix (pyStrip c.object_text_canonical)).take 1000 })
        rw [mkParsedClaim_set_canonical c hwf _ h1000]
        unfold sameUpToCanonical
        rfl
      · rw [if_neg hcond]
        exact ⟨some topic, c, rfl, sameUpToCanonical_refl c, htopic⟩

lemma contextFold_spec (claims : List ParsedClaim) :
    ∀ lt out, (∀ c ∈ claims, c.wf) → topicOk lt →
      ∃ res, (claims.foldl contextStep (lt, out)).2 = out ++ res ∧
        List.Forall₂ sameUpToCanonical claims res := by
  induction claims with
  | nil => exact fun lt out _ _ => ⟨[], by simp, .nil⟩
  | cons c cs ih =>
    intro lt out hwf htopic
    obtain ⟨lt2, c2, hstep, hsame, htop2⟩ :=
      contextStep_cases lt out c (hwf c (by simp)) htopic
    obtain ⟨res, hres, hfa⟩ :=
      ih lt2 (out ++ [c2]) (fun d hd => hwf d (List.mem_cons_of_mem _ hd)) htop2
    refine ⟨c2 :: res, ?_, .cons hsame hfa⟩
    rw [List.foldl_cons, hstep, hres, List.append_assoc]
    rfl

/-- C10: `_apply_context_completion` preserves the number and order of
claims, and each output claim agrees with the corresponding input claim on
every field except possibly `object_text_canonical` (the carried-topic
rewrite); the well-formedness hypothesis says the inputs are claims as the
Python `ParsedClaim` constructor produces them. -/
theorem C10_context_completion_frame (claims : List ParsedClaim)
    (hwf : ∀ c ∈ claims, c.wf) :
    (_apply_context_completion claims).length = claims.length ∧
    List.Forall₂ sameUpToCanonical claims (_apply_context_completion claims) := by
  obtain ⟨res, hres, hfa⟩ := contextFold_spec claims none [] hwf trivial
  unfold _apply_context_completion
  rw [hres, List.nil_append]
  exact ⟨hfa.length_eq.symm, hfa⟩

/-- C10 witness: the frame property at a concrete claim list. -/
theorem C10_context_completion_frame_witness :
    (_apply_context_completion endedParsed.claims).length = endedParsed.claims.length ∧
    List.Forall₂ sameUpToCanonical endedParsed.claims
      (_apply_context_completion endedParsed.claims) :=
  C10_context_completion_frame endedParsed.claims (by decide)

/-! ### Unconditional shape lemmas for the normalizer stages -/

lemma contextStep_snd (st : Option Str × List ParsedClaim) (c : ParsedClaim) :
    ∃ c2, (contextStep st c).2 = st.2 ++ [c2] := by
  obtain ⟨lt, out⟩ := st
  unfold contextStep
  dsimp only
  cases _extract_context_topic (pyStrip c.object_text_canonical) with
  | some current => exact ⟨c, rfl⟩
  | none =>
    cases lt with
    | none => exact ⟨c, rfl⟩
    | some topic =>
      dsimp only
      by_cases hcond : _needs_context_completion (pyStrip c.object_text_canonical) = true ∧
          ¬ containsSub topic (pyStrip c.object_text_canonical) = true
      · rw [if_pos hcond]
        exact ⟨_, rfl⟩
      · rw [if_neg hcond]
        exact ⟨c, rfl⟩

lemma contextFold_length (claims : List ParsedClaim) :
    ∀ st : Option Str × List ParsedClaim,
      ((claims.foldl contextStep st).2).length = st.2.length + claims.length := by
  induction claims with
  | nil => intro st; simp
  | cons c cs ih =>
    intro st
    obtain ⟨c2, h2⟩ := contextStep_snd st c
    rw [List.foldl_cons, ih (contextStep st c), h2]
    simp
    omega

lemma completion_length (claims : List ParsedClaim) :
    (_apply_context_completion claims).length = claims.length := by
  unfold _apply_context_completion
  rw [contextFold_length]
  simp

lemma completion_single (c : ParsedClaim) : _apply_context_completion [c] = [c] := by
  unfold _apply_context_completion
  simp only [List.foldl_cons, List.foldl_nil]
  unfold contextStep
  dsimp only
  cases _extract_context_topic (pyStrip c.object_text_canonical) with
  | some current => rfl
  | none => rfl

lemma augmentStep_shape (occ : Option Str) (out : List ParsedClaim) (clause : Str) :
    augmentStep occ out clause = out ∨
      (augmentStep occ out clause = out ++ [_clause_to_fallback_claim clause occ] ∧
        clauseQualifies clause ∧ _is_clause_covered clause out = false) := by
  unfold augmentStep
  by_cases h4 : clause.length < 4
  · rw [if_pos h4]; exact Or.inl rfl
  · rw [if_neg h4]
    by_cases hh : ¬ (containsAnyCI ACTION_HINT_WORDS clause = true ∨
        containsAnyCI PLAN_HINT_WORDS clause = true)
    · rw [if_pos hh]; exact Or.inl rfl
    · rw [if_neg hh]
      by_cases hc : _is_clause_covered clause out = true
      · rw [if_pos hc]; exact Or.inl rfl
      · rw [if_neg hc]
        exact Or.inr ⟨rfl, ⟨by omega, by tauto⟩, by simpa using hc⟩

lemma augment_foldl_prefix (occ : Option Str) (clauses : List Str) :
    ∀ claims, ∃ suffix,
      clauses.foldl (augmentStep occ) claims = claims ++ suffix ∧
      ∀ c ∈ suffix, ∃ clause ∈ clauses, clauseQualifies clause ∧
        c = _clause_to_fallback_claim clause occ := by
  induction clauses with
  | nil => exact fun claims => ⟨[], by simp, by simp⟩
  | cons cl cls ih =>
    intro claims
    rcases augmentStep_shape occ claims cl with h | ⟨h, hq, _⟩
    · obtain ⟨suffix, hfold, hprop⟩ := ih (augmentStep occ claims cl)
      rw [h] at hfold
      refine ⟨suffix, by rw [List.foldl_cons, h, hfold], ?_⟩
      intro c hc
      obtain ⟨clause, hcl, hp, he⟩ := hprop c hc
      exact ⟨clause, List.mem_cons_of_mem _ hcl, hp, he⟩
    · obtain ⟨suffix, hfold, hprop⟩ := ih (augmentStep occ claims cl)
      rw [h] at hfold
      refine ⟨_clause_to_fallback_claim cl occ :: suffix,
        by rw [List.foldl_cons, h, hfold, List.append_assoc]; rfl, ?_⟩
      intro c hc
      rcases List.mem_cons.1 hc with hc | hc
      · exact ⟨cl, by simp, hq, hc⟩
      · obtain ⟨clause, hcl, hp, he⟩ := hprop c hc
        exact ⟨clause, List.mem_cons_of_mem _ hcl, hp, he⟩

lemma augment_prefix (claims : List ParsedClaim) (raw_text : Str) (occ : Option Str) :
    ∃ suffix, _augment_missing_action_claims claims raw_text occ = claims ++ suffix ∧
      ∀ c ∈ suffix, ∃ clause ∈ _split_action_clauses raw_text, clauseQualifies clause ∧
        c = _clause_to_fallback_claim clause occ :=
  augment_foldl_prefix occ (_split_action_clauses raw_text) claims

lemma clause_fallback_predicate (clause : Str) (occ : Option Str) :
    (_clause_to_fallback_claim clause occ).predicate = txt "planned" ∨
    (_clause_to_fallback_claim clause occ).predicate = txt "did" := by
  unfold _clause_to_fallback_claim
  by_cases hp : containsAnyCI PLAN_HINT_WORDS clause = true
  · left; simp [hp]
  · right; simp [hp]

lemma addContext_claims (claims : List ParsedClaim) (links : List ParsedClaimLink)
    (raw_text : Str) (occ : Option Str) :
    (addContextCauseIfNeeded claims links raw_text occ).1 = claims ∨
    (addContextCauseIfNeeded claims links raw_text occ).1 =
      claims ++ [contextHappenedClaim raw_text occ] := by
  unfold addContextCauseIfNeeded
  by_cases h1 : decisionIndexes claims ≠ [] ∧
      ¬ claims.any (fun c => c.predicate ∈ EVENT_PREDICATES) = true
  · rw [if_pos h1]
    by_cases h2 : containsAnyCI RAIN_HINT_WORDS raw_text = true ∨
        containsAnyCI CAUSE_HINT_WORDS raw_text = true
    · rw [if_pos h2]; exact Or.inr rfl
    · rw [if_neg h2]; exact Or.inl rfl
  · rw [if_neg h1]; exact Or.inl rfl

lemma normalize_claims_eq (parsed : ParsedClaimsOutput) (raw_text declared_type : Str)
    (occ : Option Str) :
    (normalize_to_me_centric_claims parsed raw_text declared_type occ).claims =
      (addContextCauseIfNeeded (preCausalClaims parsed raw_text occ)
        (synthesizeDecisionCauseLinks (preCausalClaims parsed raw_text occ)
          (reindexedLinks parsed)) raw_text occ).1 := rfl

lemma normalize_links_eq (parsed : ParsedClaimsOutput) (raw_text declared_type : Str)
    (occ : Option Str) :
    (normalize_to_me_centric_claims parsed raw_text declared_type occ).links =
      (addContextCauseIfNeeded (preCausalClaims parsed raw_text occ)
        (synthesizeDecisionCauseLinks (preCausalClaims parsed raw_text occ)
          (reindexedLinks parsed)) raw_text occ).2 := rfl

lemma preCausal_ne_nil (parsed : ParsedClaimsOutput) (raw_text : Str) (occ : Option Str) :
    preCausalClaims parsed raw_text occ ≠ [] := by
  unfold preCausalClaims
  obtain ⟨suffix, hfold, _⟩ :=
    augment_prefix (_apply_context_completion (withFallbackClaims parsed raw_text occ))
      raw_text occ
  rw [hfold]
  have hlen : (_apply_context_completion (withFallbackClaims parsed raw_text occ)).length =
      (withFallbackClaims parsed raw_text occ).length := completion_length _
  have hwf : withFallbackClaims parsed raw_text occ ≠ [] := by
    unfold withFallbackClaims
    by_cases hempty : parsed.claims.map (normalizeOneClaim raw_text occ) = []
    · rw [if_pos hempty]; simp
    · rw [if_neg hempty]; exact hempty
  intro hcontra
  rcases List.append_eq_nil.1 hcontra with ⟨h1, _⟩
  have : (withFallbackClaims parsed raw_text occ).length = 0 := by rw [← hlen, h1]; rfl
  exact hwf (List.length_eq_zero.1 this)

/-! ## C1 -/

/-- C1: at the failing input `"a@b.com"` the redactor classifies the text
as medium risk and masks it, as the claim says, but the model-safe text is
21 characters long where the input (a single 7-character email match) has
7: the replacement literal in the source is the three-character mojibake
sequence `â–ˆ` rather than a single filler character, so masked spans are
tripled in length, contradicting the claim's (and the helper
`_mask_with_same_length`'s own) same-length contract. -/
theorem C1_email_mask_not_same_length :
    (redact_for_llm (txt "a@b.com")).pii_score = mkRat 55 100 ∧
    (redact_for_llm (txt "a@b.com")).risk_level = txt "medium" ∧
    (redact_for_llm (txt "a@b.com")).redaction_state = txt "masked" ∧
    (redact_for_llm (txt "a@b.com")).llm_text = fillRepeat MOJI_FILL 7 ∧
    (txt "a@b.com").length = 7 ∧
    (redact_for_llm (txt "a@b.com")).llm_text.length = 21 := by
  decide

/-! ## C4 -/

lemma take_ne_nil_of_ne_nil {s : Str} (h : s ≠ []) : s.take 1000 ≠ [] := by
  cases s with
  | nil => exact absurd rfl h
  | cons c cs => simp

lemma fallback_canonical (raw_text : Str) (occ : Option Str) :
    (_make_fallback_me_claim raw_text occ).object_text_canonical =
      (if pyStrip raw_text ≠ [] then (pyStrip raw_text).take 1000 else txt "entry recorded") := by
  unfold _make_fallback_me_claim
  rw [mk_object_text_canonical]
  by_cases h : pyStrip raw_text ≠ []
  · rw [if_pos h, if_pos h]
    rw [if_neg (take_ne_nil_of_ne_nil h)]
    rw [List.take_take]
    norm_num
  · rw [if_neg h, if_neg h]
    rw [if_neg (by decide : ¬ txt "entry recorded" = [])]
    rfl

/-- C4 counterexample: with no parsed claims and source text `" memo"`
(leading space), the synthesized fallback claim's canonical object text is
`"memo"`, which is not a prefix of the source text — the object is a prefix
of the *stripped* source, not of the source itself. -/
theorem C4_fallback_prefix_counterexample :
    ((normalize_to_me_centric_claims ⟨[], [], []⟩ (txt " memo") (txt "note") none).claims.head?.map
        ParsedClaim.object_text_canonical) = some (txt "memo") ∧
    ¬ txt "memo" <+: txt " memo" := by
  constructor
  · decide
  · decide

/-- C4 (amended): the normalizer always returns at least one claim; when
the parsed claim list is empty it synthesizes exactly one
canonical-identity claim — the head of the output — with subject `me`,
predicate `experienced`, modality `fact`, whose object text is a prefix of
the whitespace-trimmed source text (or the fixed placeholder
`entry recorded` when the trimmed source is empty), and no other output
claim carries the predicate `experienced`. -/
theorem C4_normalizer_totality (parsed : ParsedClaimsOutput) (raw_text declared_type : Str)
    (occ : Option Str) :
    (normalize_to_me_centric_claims parsed raw_text declared_type occ).claims ≠ [] ∧
    (parsed.claims = [] →
      (normalize_to_me_centric_claims parsed raw_text declared_type occ).claims.head? =
        some (_make_fallback_me_claim raw_text occ) ∧
      (_make_fallback_me_claim raw_text occ).subject_text = txt "me" ∧
      (_make_fallback_me_claim raw_text occ).predicate = txt "experienced" ∧
      (_make_fallback_me_claim raw_text occ).modality = txt "fact" ∧
      (pyStrip raw_text ≠ [] →
        (_make_fallback_me_claim raw_text occ).object_text_canonical <+: pyStrip raw_text) ∧
      (pyStrip raw_text = [] →
        (_make_fallback_me_claim raw_text occ).object_text_canonical = txt "entry recorded") ∧
      ∀ c ∈ (normalize_to_me_centric_claims parsed raw_text declared_type occ).claims.tail,
        c.predicate ≠ txt "experienced") := by
  constructor
  · rw [normalize_claims_eq]
    rcases addContext_claims (preCausalClaims parsed raw_text occ)
      (synthesizeDecisionCauseLinks (preCausalClaims parsed raw_text occ) (reindexedLinks parsed))
      raw_text occ with hA | hA
    · rw [hA]; exact preCausal_ne_nil parsed raw_text occ
    · rw [hA]
      intro hcontra
      exact preCausal_ne_nil parsed raw_text occ (List.append_eq_nil.1 hcontra).1
  · intro hpc
    have hwfb : withFallbackClaims parsed raw_text occ =
        [_make_fallback_me_claim raw_text occ] := by
      unfold withFallbackClaims
      rw [hpc]
      simp
    obtain ⟨suffix, haug, hsuffix⟩ :=
      augment_prefix (_apply_context_completion (withFallbackClaims parsed raw_text occ))
        raw_text occ
    have hpre : preCausalClaims parsed raw_text occ =
        _make_fallback_me_claim raw_text occ :: suffix := by
      unfold preCausalClaims
      rw [haug, hwfb, completion_single]
      rfl
    have hsplit :
        (normalize_to_me_centric_claims parsed raw_text declared_type occ).claims =
          _make_fallback_me_claim raw_text occ :: suffix ∨
        (normalize_to_me_centric_claims parsed raw_text declared_type occ).claims =
          _make_fallback_me_claim raw_text occ ::
            (suffix ++ [contextHappenedClaim raw_text occ]) := by
      rw [normalize_claims_eq]
      rcases addContext_claims (preCausalClaims parsed raw_text occ)
        (synthesizeDecisionCauseLinks (preCausalClaims parsed raw_text occ)
          (reindexedLinks parsed)) raw_text occ with hA | hA
      · left; rw [hA, hpre]
      · right; rw [hA, hpre]; rfl
    have hhead :
        (normalize_to_me_centric_claims parsed raw_text declared_type occ).claims.head? =
          some (_make_fallback_me_claim raw_text occ) := by
      rcases hsplit with h | h <;> rw [h] <;> rfl
    have htailmem : ∀ c ∈ (normalize_to_me_centric_claims parsed raw_text
        declared_type occ).claims.tail, c.predicate ≠ txt "experienced" := by
      intro c hc
      have hcmem : c ∈ suffix ∨ c = contextHappenedClaim raw_text occ := by
        rcases hsplit with h | h
        · rw [h] at hc
          exact Or.inl hc
        · rw [h] at hc
          simp only [List.tail_cons, List.mem_append, List.mem_singleton] at hc
          tauto
      rcases hcmem with hc2 | hc2
      · obtain ⟨clause, _, _, he⟩ := hsuffix c hc2
        rcases clause_fallback_predicate clause occ with hp | hp <;> rw [he, hp] <;> decide
      · rw [hc2]
        have hhap : (contextHappenedClaim raw_text occ).predicate = txt "happened" := rfl
        rw [hhap]
        decide
    refine ⟨hhead, rfl, rfl, rfl, ?_, ?_, htailmem⟩
    · intro hne
      rw [fallback_canonical, if_pos hne]
      exact List.take_prefix 1000 (pyStrip raw_text)
    · intro heq
      rw [fallback_canonical, if_neg (by rw [heq]; simp)]

/-- C4 witness: the amended statement at the empty parsed output and
blank source text. -/
theorem C4_normalizer_totality_witness :
    (normalize_to_me_centric_claims ⟨[], [], []⟩ (txt "  ") (txt "note") none).claims ≠ [] ∧
    (normalize_to_me_centric_claims ⟨[], [], []⟩ (txt "  ") (txt "note") none).claims.head? =
      some (_make_fallback_me_claim (txt "  ") none) ∧
    (_make_fallback_me_claim (txt "  ") none).object_text_canonical = txt "entry recorded" := by
  have h := C4_normalizer_totality ⟨[], [], []⟩ (txt "  ") (txt "note") none
  have h2 := h.2 rfl
  exact ⟨h.1, h2.1, h2.2.2.2.2.2.1 (by decide)⟩

/-! ## C3 -/

lemma addContext_links_mono (claims : List ParsedClaim) (links : List ParsedClaimLink)
    (raw_text : Str) (occ : Option Str) (l : ParsedClaimLink) (h : l ∈ links) :
    l ∈ (addContextCauseIfNeeded claims links raw_text occ).2 := by
  unfold addContextCauseIfNeeded
  by_cases h1 : decisionIndexes claims ≠ [] ∧
      ¬ claims.any (fun c => c.predicate ∈ EVENT_PREDICATES) = true
  · rw [if_pos h1]
    by_cases h2 : containsAnyCI RAIN_HINT_WORDS raw_text = true ∨
        containsAnyCI CAUSE_HINT_WORDS raw_text = true
    · rw [if_pos h2]
      exact List.mem_append_left _ h
    · rw [if_neg h2]
      exact h
  · rw [if_neg h1]
    exact h

lemma synthesize_eq (claims : List ParsedClaim) (links : List ParsedClaimLink) (j : Nat)
    (hdec : decisionIndexes claims ≠ [])
    (hno : hasDecisionCause links (decisionIndexes claims) = false)
    (hj : firstCauseCandidate claims (decisionIndexes claims) = some j) :
    synthesizeDecisionCauseLinks claims links =
      links ++ (decisionIndexes claims).map
        (fun d => { from_claim_index := d, to_claim_index := j,
                    relation_type := txt "caused_by", confidence := mkRat 75 100 }) := by
  unfold synthesizeDecisionCauseLinks
  rw [if_pos ⟨hdec, by simp [hno]⟩, hj]

/-- C3 counterexample: with claims `[(me, ended, 即解散した), (weather,
happened, 雨が降った)]` and no links, the code links the decision claim at
index 0 to the event claim at index 1 — a claim that *follows* it, not a
preceding one — and it is the only link, refuting "searches the preceding
claims ... links the decision claim to the first such match". -/
theorem C3_preceding_search_counterexample :
    (normalize_to_me_centric_claims fwdParsed (txt "メモ") (txt "journal") none).links =
      [{ from_claim_index := 0, to_claim_index := 1,
         relation_type := txt "caused_by", confidence := mkRat 75 100 }] ∧
    ¬ (∀ l ∈ (normalize_to_me_centric_claims fwdParsed (txt "メモ") (txt "journal") none).links,
        l.relation_type = txt "caused_by" → l.to_claim_index < l.from_claim_index) := by
  constructor
  · decide
  · decide

/-- C3 (amended): when at least one decision-type claim exists and *no*
decision claim has an outgoing `caused_by` link, the normalizer scans all
claims in index order (not only preceding ones, and skipping decision
claims) for an event-type claim or one whose object matches the rain-hint
pattern, and links *every* decision claim to the first such match with
confidence 0.75; and for the concrete scenario input
"今日お台場で同期と遊んだら雨降ってきて即解散になった" with the three
pre-extracted claims, normalization retains all three claims and produces a
`caused_by` link from the "ended" claim. -/
theorem C3_causal_link_synthesis :
    (∀ (parsed : ParsedClaimsOutput) (raw_text declared_type : Str) (occ : Option Str) (j : Nat),
      decisionIndexes (preCausalClaims parsed raw_text occ) ≠ [] →
      hasDecisionCause (reindexedLinks parsed)
        (decisionIndexes (preCausalClaims parsed raw_text occ)) = false →
      firstCauseCandidate (preCausalClaims parsed raw_text occ)
        (decisionIndexes (preCausalClaims parsed raw_text occ)) = some j →
      ∀ d ∈ decisionIndexes (preCausalClaims parsed raw_text occ),
        ({ from_claim_index := d, to_claim_index := j,
           relation_type := txt "caused_by", confidence := mkRat 75 100 } : ParsedClaimLink) ∈
          (normalize_to_me_centric_claims parsed raw_text declared_type occ).links) ∧
    ((normalize_to_me_centric_claims scenarioParsed scenarioRawText (txt "journal") none).claims.map
        (fun c => (c.subject_text, c.predicate, c.object_text_canonical)) =
      [(txt "me", txt "did", txt "同期とお台場で遊んだ"),
       (txt "weather", txt "happened", txt "雨が降った"),
       (txt "me", txt "ended", txt "即解散した")] ∧
     ∃ l ∈ (normalize_to_me_centric_claims scenarioParsed scenarioRawText (txt "journal") none).links,
       l.relation_type = txt "caused_by" ∧ l.from_claim_index = 2) := by
  constructor
  · intro parsed raw_text declared_type occ j hdec hno hj d hd
    rw [normalize_links_eq]
    apply addContext_links_mono
    rw [synthesize_eq _ _ j hdec hno hj]
    exact List.mem_append_right _ (List.mem_map.2 ⟨d, hd, rfl⟩)
  · constructor
    · decide
    · decide

/-- C3 witness: the universal part applied at the scenario input. -/
theorem C3_causal_link_synthesis_witness :
    ({ from_claim_index := 2, to_claim_index := 1,
       relation_type := txt "caused_by", confidence := mkRat 75 100 } : ParsedClaimLink) ∈
      (normalize_to_me_centric_claims scenarioParsed scenarioRawText (txt "journal") none).links :=
  C3_causal_link_synthesis.1 scenarioParsed scenarioRawText (txt "journal") none 1
    (by decide) (by decide) (by decide) 2 (by decide)

/-! ## C7 -/

lemma covered_mono (clause : Str) (l l2 : List ParsedClaim)
    (h : _is_clause_covered clause l = true) :
    _is_clause_covered clause (l ++ l2) = true := by
  unfold _is_clause_covered at h ⊢
  dsimp only at h ⊢
  by_cases hn : _normalize_text_for_match clause = []
  · rw [if_pos hn]
  · rw [if_neg hn] at h ⊢
    rw [List.any_append]
    rw [h]
    rfl

lemma augmentStep_of_qualifies (occ : Option Str) (out : List ParsedClaim) (clause : Str)
    (hq : clauseQualifies clause) :
    (_is_clause_covered clause out = true ∧ augmentStep occ out clause = out) ∨
    (_is_clause_covered clause out = false ∧
      augmentStep occ out clause = out ++ [_clause_to_fallback_claim clause occ]) := by
  obtain ⟨h4, hh⟩ := hq
  unfold augmentStep
  rw [if_neg (by omega), if_neg (by tauto)]
  by_cases hc : _is_clause_covered clause out = true
  · rw [if_pos hc]
    exact Or.inl ⟨hc, rfl⟩
  · rw [if_neg hc]
    exact Or.inr ⟨by simpa using hc, rfl⟩

lemma augment_foldl_covers (occ : Option Str) (clauses : List Str) :
    ∀ claims, ∀ clause ∈ clauses, clauseQualifies clause →
      _is_clause_covered clause (clauses.foldl (augmentStep occ) claims) = true ∨
      _clause_to_fallback_claim clause occ ∈ clauses.foldl (augmentStep occ) claims := by
  induction clauses with
  | nil => simp
  | cons cl cls ih =>
    intro claims clause hmem hq
    rw [List.foldl_cons]
    rcases List.mem_cons.1 hmem with heq | htail
    · subst heq
      obtain ⟨suffix, hfold, _⟩ := augment_foldl_prefix occ cls (augmentStep occ claims clause)
      rcases augmentStep_of_qualifies occ claims clause hq with ⟨hcov, hstep⟩ | ⟨_, hstep⟩
      · left
        rw [hfold, hstep]
        exact covered_mono _ _ _ hcov
      · right
        rw [hfold, hstep]
        exact List.mem_append_left _ (List.mem_append_right _ (by simp))
    · exact ih (augmentStep occ claims cl) clause htail hq

/-- C7 counterexample: for raw text "ジムで運動した、運動した" and no
existing claims, both clauses qualify (length ≥ 4, action hint) and
neither is covered by any existing claim, yet only one synthetic claim is
added: the second clause is covered by the synthetic claim generated for
the first clause, so no claim with object "運動した" exists in the output,
refuting "adds a synthetic claim for every clause ... not covered by any
existing claim". -/
theorem C7_covered_by_synthetic_counterexample :
    ((_augment_missing_action_claims [] augRawText none).map
        ParsedClaim.object_text_canonical = [txt "ジムで運動した"]) ∧
    (txt "運動した") ∈ _split_action_clauses augRawText ∧
    clauseQualifies (txt "運動した") ∧
    _is_clause_covered (txt "運動した") ([] : List ParsedClaim) = false ∧
    ¬ ∃ c ∈ _augment_missing_action_claims [] augRawText none,
        c.object_text_canonical = txt "運動した" := by
  refine ⟨by decide, by decide, ⟨by decide, by decide⟩, by decide, by decide⟩

/-- C7 (amended): the augmentation stage appends claims only (existing
claims are never modified or removed); every appended claim is the
synthetic claim of a qualifying clause (≥ 4 characters, action/plan hint)
of the raw text, with subject `me` and predicate/modality/confidence
`planned`/`plan`/0.72 for plan-hinted clauses and `did`/`fact`/0.68
otherwise; and coverage is checked against the existing claims *plus the
synthetic claims already added for earlier clauses*: after the stage, every
qualifying clause is either covered by the final claim list or has its own
synthetic claim in it. -/
theorem C7_augmentation (claims : List ParsedClaim) (raw_text : Str) (occ : Option Str) :
    claims <+: _augment_missing_action_claims claims raw_text occ ∧
    (∀ c ∈ (_augment_missing_action_claims claims raw_text occ).drop claims.length,
      ∃ clause ∈ _split_action_clauses raw_text, clauseQualifies clause ∧
        c = _clause_to_fallback_claim clause occ ∧
        c.subject_text = txt "me" ∧
        (containsAnyCI PLAN_HINT_WORDS clause = true →
          c.predicate = txt "planned" ∧ c.modality = txt "plan" ∧ c.certainty = mkRat 72 100) ∧
        (containsAnyCI PLAN_HINT_WORDS clause = false →
          c.predicate = txt "did" ∧ c.modality = txt "fact" ∧ c.certainty = mkRat 68 100)) ∧
    (∀ clause ∈ _split_action_clauses raw_text, clauseQualifies clause →
      _is_clause_covered clause (_augment_missing_action_claims claims raw_text occ) = true ∨
      _clause_to_fallback_claim clause occ ∈ _augment_missing_action_claims claims raw_text occ) := by
  obtain ⟨suffix, hfold, hprop⟩ := augment_prefix claims raw_text occ
  refine ⟨⟨suffix, hfold.symm⟩, ?_, ?_⟩
  · intro c hc
    rw [hfold, List.drop_append_of_le_length (le_refl _), List.drop_length,
      List.nil_append] at hc
    obtain ⟨clause, hclmem, hq, he⟩ := hprop c hc
    refine ⟨clause, hclmem, hq, he, ?_, ?_, ?_⟩
    · rw [he]; rfl
    · intro hp
      rw [he]
      unfold _clause_to_fallback_claim
      rw [hp]
      exact ⟨rfl, rfl, rfl⟩
    · intro hp
      rw [he]
      unfold _clause_to_fallback_claim
      rw [hp]
      exact ⟨rfl, rfl, rfl⟩
  · exact augment_foldl_covers occ (_split_action_clauses raw_text) claims

/-- C7 witness: the amended statement's coverage guarantee at the concrete
two-clause input. -/
theorem C7_augmentation_witness :
    (txt "運動した") ∈ _split_action_clauses augRawText ∧
    (_is_clause_covered (txt "運動した") (_augment_missing_action_claims [] augRawText none) = true ∨
      _clause_to_fallback_claim (txt "運動した") none ∈
        _augment_missing_action_claims [] augRawText none) :=
  ⟨by decide,
   (C7_augmentation [] augRawText none).2.2 (txt "運動した") (by decide) ⟨by decide, by decide⟩⟩

/-! ## C9 — stage lemmas -/

lemma startsNonWs_strip_ne {s : Str} (h : startsNonWsB s = true) : pyStrip s ≠ [] := by
  cases s with
  | nil => exact absurd h (by simp [startsNonWsB])
  | cons c cs =>
    simp only [startsNonWsB, Bool.not_eq_true'] at h
    unfold pyStrip pyStripLeft pyStripRight
    rw [List.dropWhile_cons, if_neg (by simp [h])]
    intro hcontra
    rw [List.reverse_eq_nil_iff, List.dropWhile_eq_nil_iff] at hcontra
    have := hcontra c (by simp)
    rw [h] at this
    exact Bool.noConfusion this

lemma restore_startsNonWs (object_text raw_text : Str) (spans : List ParsedEvidenceSpan)
    (h : startsNonWsB object_text = true) :
    startsNonWsB (_restore_object_text_from_evidence_if_translated object_text raw_text spans)
      = true := by
  unfold _restore_object_text_from_evidence_if_translated
  by_cases h1 : pyStrip raw_text = [] ∨ spans = []
  · rw [if_pos h1]; exact h
  · rw [if_neg h1]
    by_cases h2 : ¬ _contains_cjk raw_text = true
    · rw [if_pos h2]; exact h
    · rw [if_neg h2]
      by_cases h3 : _contains_cjk object_text = true
      · rw [if_pos h3]; exact h
      · rw [if_neg h3]
        cases spans with
        | nil => exact h
        | cons sp rest =>
          dsimp only
          by_cases h4 : pyStrip sp.excerpt ≠ [] ∧ _contains_cjk (pyStrip sp.excerpt) = true
          · rw [if_pos h4]
            exact startsNonWs_take 1000 (by omega) (pyStrip_startsNonWs h4.1)
          · rw [if_neg h4]; exact h

lemma ensure_canonical (cl : ParsedClaim) (raw_text : Str)
    (h : startsNonWsB cl.object_text_canonical = true) :
    startsNonWsB (_ensure_single_evidence cl raw_text).object_text_canonical = true := by
  unfold _ensure_single_evidence
  by_cases hsp : cl.evidence_spans ≠ []
  · rw [if_pos hsp]; exact h
  · rw [if_neg hsp]
    rw [mk_object_text_canonical]
    dsimp only
    rw [if_neg (startsNonWs_ne_nil h)]
    exact startsNonWs_take 1000 (by omega) h

lemma ensure_evOk (cl : ParsedClaim) (raw_text : Str)
    (hexc : ∀ sp ∈ cl.evidence_spans, sp.excerpt ≠ []) :
    claimEvOk (_ensure_single_evidence cl raw_text) := by
  unfold _ensure_single_evidence
  by_cases hsp : cl.evidence_spans ≠ []
  · rw [if_pos hsp]; exact ⟨hsp, hexc⟩
  · rw [if_neg hsp]
    constructor
    · rw [mk_evidence_spans]
      simp
    · rw [mk_evidence_spans]
      dsimp only
      intro sp hsp2
      rw [List.mem_singleton] at hsp2
      subst hsp2
      dsimp only
      by_cases he : (if pyStrip raw_text ≠ [] then (pyStrip raw_text).take 200
          else cl.object_text_canonical.take 200) ≠ []
      · rw [if_pos he]; exact he
      · rw [if_neg he]; decide

lemma canonicalObjectOf_startsNonWs (raw_text : Str) (c : ParsedClaim)
    (hcanon : startsNonWsB c.object_text_canonical = true) :
    startsNonWsB (canonicalObjectOf raw_text c) = true := by
  unfold canonicalObjectOf
  rw [if_pos (startsNonWs_ne_nil hcanon)]
  exact restore_startsNonWs _ _ _ (startsNonWs_take 1000 (by omega) hcanon)

lemma normalizeOne_good (raw_text : Str) (occ : Option Str) (c : ParsedClaim)
    (hcanon : startsNonWsB c.object_text_canonical = true)
    (hexc : ∀ sp ∈ c.evidence_spans, sp.excerpt ≠ []) :
    claimGood (normalizeOneClaim raw_text occ c) := by
  unfold normalizeOneClaim
  have hrest := canonicalObjectOf_startsNonWs raw_text c hcanon
  constructor
  · apply ensure_canonical
    rw [mk_object_text_canonical]
    dsimp only
    rw [if_neg (startsNonWs_ne_nil hrest)]
    exact startsNonWs_take 1000 (by omega) hrest
  · apply ensure_evOk
    rw [mk_evidence_spans]
    exact hexc

lemma fallback_good (raw_text : Str) (occ : Option Str) :
    claimGood (_make_fallback_me_claim raw_text occ) := by
  refine ⟨?_, ?_, ?_⟩
  · rw [fallback_canonical]
    by_cases h : pyStrip raw_text ≠ []
    · rw [if_pos h]
      exact startsNonWs_take 1000 (by omega) (pyStrip_startsNonWs h)
    · rw [if_neg h]; decide
  · show (_make_fallback_me_claim raw_text occ).evidence_spans ≠ []
    unfold _make_fallback_me_claim
    rw [mk_evidence_spans]
    simp
  · show ∀ sp ∈ (_make_fallback_me_claim raw_text occ).evidence_spans, sp.excerpt ≠ []
    unfold _make_fallback_me_claim
    rw [mk_evidence_spans]
    dsimp only
    intro sp hsp
    rw [List.mem_singleton] at hsp
    subst hsp
    dsimp only
    by_cases h : pyStrip raw_text ≠ []
    · rw [if_pos h]
      intro hcontra
      exact take_ne_nil_of_ne_nil (s := pyStrip raw_text) h (by
        cases hpr : pyStrip raw_text with
        | nil => exact absurd hpr h
        | cons a as =>
          rw [hpr] at hcontra
          cases hcontra)
    · rw [if_neg h]; decide

lemma clause_fallback_good (clause : Str) (occ : Option Str)
    (h : startsNonWsB clause = true) :
    claimGood (_clause_to_fallback_claim clause occ) := by
  unfold _clause_to_fallback_claim
  refine ⟨?_, ?_, ?_⟩
  · rw [mk_object_text_canonical]
    dsimp only
    have h1000 : startsNonWsB (clause.take 1000) = true := startsNonWs_take 1000 (by omega) h
    rw [if_neg (startsNonWs_ne_nil h1000)]
    exact startsNonWs_take 1000 (by omega) h1000
  · rw [mk_evidence_spans]
    simp
  · rw [mk_evidence_spans]
    dsimp only
    intro sp hsp
    rw [List.mem_singleton] at hsp
    subst hsp
    dsimp only
    by_cases he : clause.take 200 ≠ []
    · rw [if_pos he]; exact he
    · rw [if_neg he]; decide

lemma contextHappened_evOk (raw_text : Str) (occ : Option Str) :
    claimEvOk (contextHappenedClaim raw_text occ) := by
  unfold contextHappenedClaim
  constructor
  · rw [mk_evidence_spans]
    simp
  · rw [mk_evidence_spans]
    dsimp only
    intro sp hsp
    rw [List.mem_singleton] at hsp
    subst hsp
    dsimp only
    by_cases hr : raw_text ≠ []
    · rw [if_pos hr]
      cases raw_text with
      | nil => exact absurd rfl hr
      | cons a as => simp
    · rw [if_neg hr]; decide

lemma split_clauses_startsNonWs (raw_text : Str) :
    ∀ cl ∈ _split_action_clauses raw_text, startsNonWsB cl = true := by
  intro cl hcl
  unfold _split_action_clauses at hcl
  rw [List.mem_flatMap] at hcl
  obtain ⟨sentence, _, hin⟩ := hcl
  by_cases hs : pyStrip sentence = []
  · rw [if_pos hs] at hin
    exact absurd hin (by simp)
  · rw [if_neg hs] at hin
    rw [List.mem_filterMap] at hin
    obtain ⟨seg, _, hseg⟩ := hin
    by_cases ht : pyStrip seg = []
    · rw [if_pos ht] at hseg
      exact Option.noConfusion hseg
    · rw [if_neg ht] at hseg
      have : pyStrip seg = cl := Option.some.inj hseg
      rw [← this]
      exact pyStrip_startsNonWs ht

lemma contextStep_preserves (st : Option Str × List ParsedClaim) (c : ParsedClaim)
    (hgood : claimGood c) (htopic : topicOk st.1) :
    ∃ lt2 c2, contextStep st c = (lt2, st.2 ++ [c2]) ∧ topicOk lt2 ∧ claimGood c2 := by
  obtain ⟨lt, out⟩ := st
  unfold contextStep
  dsimp only
  cases hx : _extract_context_topic (pyStrip c.object_text_canonical) with
  | some current =>
    exact ⟨some current, c, rfl, extract_topic_startsNonWs hx, hgood⟩
  | none =>
    cases lt with
    | none => exact ⟨none, c, rfl, trivial, hgood⟩
    | some topic =>
      dsimp only
      by_cases hcond : _needs_context_completion (pyStrip c.object_text_canonical) = true ∧
          ¬ containsSub topic (pyStrip c.object_text_canonical) = true
      · rw [if_pos hcond]
        refine ⟨some topic, _, rfl, htopic, ?_, ?_⟩
        · rw [mk_object_text_canonical]
          dsimp only
          have henr : startsNonWsB ((topic ++ txt "が" ++
              _normalize_time_expression_prefix (pyStrip c.object_text_canonical)).take 1000)
              = true := by
            apply startsNonWs_take 1000 (by omega)
            apply startsNonWs_append
            apply startsNonWs_append
            exact htopic
          rw [if_neg (startsNonWs_ne_nil henr)]
          exact startsNonWs_take 1000 (by omega) henr
        · constructor
          · rw [mk_evidence_spans]
            exact hgood.2.1
          · rw [mk_evidence_spans]
            exact hgood.2.2
      · rw [if_neg hcond]
        exact ⟨some topic, c, rfl, htopic, hgood⟩

lemma contextFold_preserves (claims : List ParsedClaim) :
    ∀ lt out, topicOk lt → (∀ c ∈ claims, claimGood c) → (∀ c ∈ out, claimGood c) →
      ∀ c ∈ (claims.foldl contextStep (lt, out)).2, claimGood c := by
  induction claims with
  | nil => intro lt out _ _ hout; exact hout
  | cons c cs ih =>
    intro lt out htopic hcl hout
    obtain ⟨lt2, c2, hstep, htop2, hgood2⟩ :=
      contextStep_preserves (lt, out) c (hcl c (by simp)) htopic
    rw [List.foldl_cons, hstep]
    apply ih lt2 (out ++ [c2]) htop2 (fun d hd => hcl d (List.mem_cons_of_mem _ hd))
    intro d hd
    rcases List.mem_append.1 hd with hd | hd
    · exact hout d hd
    · rw [List.mem_singleton] at hd
      subst hd
      exact hgood2

lemma completion_preserves (claims : List ParsedClaim) (h : ∀ c ∈ claims, claimGood c) :
    ∀ c ∈ _apply_context_completion claims, claimGood c := by
  unfold _apply_context_completion
  exact contextFold_preserves claims none [] trivial h (by simp)

lemma preCausal_good (parsed : ParsedClaimsOutput) (raw_text : Str) (occ : Option Str)
    (hcanon : ∀ c ∈ parsed.claims, startsNonWsB c.object_text_canonical = true)
    (hexc : ∀ c ∈ parsed.claims, ∀ sp ∈ c.evidence_spans, sp.excerpt ≠ []) :
    ∀ c ∈ preCausalClaims parsed raw_text occ, claimGood c := by
  have hwfb : ∀ c ∈ withFallbackClaims parsed raw_text occ, claimGood c := by
    unfold withFallbackClaims
    by_cases hempty : parsed.claims.map (normalizeOneClaim raw_text occ) = []
    · rw [if_pos hempty]
      intro c hc
      rw [List.mem_singleton] at hc
      subst hc
      exact fallback_good raw_text occ
    · rw [if_neg hempty]
      intro c hc
      rw [List.mem_map] at hc
      obtain ⟨c0, hc0, he⟩ := hc
      subst he
      exact normalizeOne_good raw_text occ c0 (hcanon c0 hc0) (hexc c0 hc0)
  have hcomp := completion_preserves _ hwfb
  unfold preCausalClaims
  obtain ⟨suffix, hfold, hprop⟩ :=
    augment_prefix (_apply_context_completion (withFallbackClaims parsed raw_text occ))
      raw_text occ
  rw [hfold]
  intro c hc
  rcases List.mem_append.1 hc with hc | hc
  · exact hcomp c hc
  · obtain ⟨clause, hclmem, _, he⟩ := hprop c hc
    subst he
    exact clause_fallback_good clause occ (split_clauses_startsNonWs raw_text clause hclmem)

/-! ## C9 — main results -/

/-- C9 counterexample: with one decision claim and raw text consisting of
180 spaces followed by `雨`, the normalizer synthesizes a `context
happened` claim whose canonical object text is `raw_text[:180]` — 180
spaces, empty after trimming — so the quality gate applied to the
normalizer's output rejects it (flag `claim_rejected:1`), refuting "apply
_quality_gate applied directly to the normalizer's output rejects no
claims". -/
theorem C9_context_claim_rejected_counterexample :
    (normalize_to_me_centric_claims endedParsed spacesRawText (txt "journal") none).claims.length
      = 2 ∧
    (apply_quality_gate
        (normalize_to_me_centric_claims endedParsed spacesRawText (txt "journal") none)).2 =
      [txt "claim_rejected:1"] ∧
    (apply_quality_gate
        (normalize_to_me_centric_claims endedParsed spacesRawText
          (txt "journal") none)).1.claims.length = 1 := by
  refine ⟨by decide, by decide, by decide⟩

/-- C9 (amended): provided every input claim has canonical object text
starting with a non-whitespace character and non-empty evidence excerpts
(exactly what `parse_claims_output` guarantees), every claim the
normalizer produces has at least one evidence span with a non-empty
excerpt; every claim except possibly one trailing synthetic
`context happened` claim passes the quality gate; and the gate output is
never empty — so the `quality_gate_rejected_all_claims` branch of `run` is
unreachable for parser-produced input.  (The synthetic context claim can
be rejected, see the counterexample.) -/
theorem C9_gate_on_normalizer_output (parsed : ParsedClaimsOutput)
    (raw_text declared_type : Str) (occ : Option Str)
    (hcanon : ∀ c ∈ parsed.claims, startsNonWsB c.object_text_canonical = true)
    (hexc : ∀ c ∈ parsed.claims, ∀ sp ∈ c.evidence_spans, sp.excerpt ≠ []) :
    (∀ c ∈ (normalize_to_me_centric_claims parsed raw_text declared_type occ).claims,
      claimEvOk c) ∧
    (∃ ctx : List ParsedClaim,
      (normalize_to_me_centric_claims parsed raw_text declared_type occ).claims =
        preCausalClaims parsed raw_text occ ++ ctx ∧ ctx.length ≤ 1 ∧
      ∀ c ∈ preCausalClaims parsed raw_text occ, _is_quality_ok c = true) ∧
    (apply_quality_gate
      (normalize_to_me_centric_claims parsed raw_text declared_type occ)).1.claims ≠ [] := by
  have hgood := preCausal_good parsed raw_text occ hcanon hexc
  have hok : ∀ c ∈ preCausalClaims parsed raw_text occ, _is_quality_ok c = true := by
    intro c hc
    have := startsNonWs_strip_ne (hgood c hc).1
    unfold _is_quality_ok
    exact decide_eq_true this
  have hsplit : ∃ ctx : List ParsedClaim,
      (normalize_to_me_centric_claims parsed raw_text declared_type occ).claims =
        preCausalClaims parsed raw_text occ ++ ctx ∧ ctx.length ≤ 1 ∧
      ∀ c ∈ ctx, claimEvOk c := by
    rw [normalize_claims_eq]
    rcases addContext_claims (preCausalClaims parsed raw_text occ)
      (synthesizeDecisionCauseLinks (preCausalClaims parsed raw_text occ)
        (reindexedLinks parsed)) raw_text occ with hA | hA
    · exact ⟨[], by rw [hA, List.append_nil], by simp, by simp⟩
    · refine ⟨[contextHappenedClaim raw_text occ], hA, by simp, ?_⟩
      intro c hc
      rw [List.mem_singleton] at hc
      subst hc
      exact contextHappened_evOk raw_text occ
  obtain ⟨ctx, hceq, hclen, hcev⟩ := hsplit
  refine ⟨?_, ⟨ctx, hceq, hclen, hok⟩, ?_⟩
  · intro c hc
    rw [hceq] at hc
    rcases List.mem_append.1 hc with hc | hc
    · exact (hgood c hc).2
    · exact hcev c hc
  · rw [apply_quality_gate_eq]
    dsimp only
    rw [hceq, List.filter_append]
    rw [List.filter_eq_self.2 hok]
    intro hcontra
    exact preCausal_ne_nil parsed raw_text occ (List.append_eq_nil.1 hcontra).1

/-- C9 witness: the amended statement at the causal-synthesis scenario
input. -/
theorem C9_gate_on_normalizer_output_witness :
    (apply_quality_gate (normalize_to_me_centric_claims scenarioParsed scenarioRawText
      (txt "journal") none)).1.claims ≠ [] :=
  (C9_gate_on_normalizer_output scenarioParsed scenarioRawText (txt "journal") none
    (by decide) (by decide)).2.2

/-! ## C5 -/

lemma fixSpanOffsets_invariant (cs ce : Option Int) :
    ((fixSpanOffsets cs ce).1 = none ∧ (fixSpanOffsets cs ce).2 = none) ∨
    (∃ a b, (fixSpanOffsets cs ce).1 = some a ∧ (fixSpanOffsets cs ce).2 = some b ∧ a < b) := by
  unfold fixSpanOffsets
  cases cs with
  | none =>
    cases ce with
    | none => simp
    | some b => simp
  | some a =>
    cases ce with
    | none => simp
    | some b =>
      simp only [Option.isSome_some, ne_eq, not_true_eq_false, if_false]
      by_cases hab : b ≤ a
      · rw [if_pos hab]
        simp
      · rw [if_neg hab]
        right
        exact ⟨a, b, rfl, rfl, by omega⟩

lemma parseEvidenceSpanItem_invariant {row : JVal} {sp : ParsedEvidenceSpan}
    (h : parseEvidenceSpanItem row = some sp) :
    (sp.char_start = none ∧ sp.char_end = none) ∨
    (∃ a b, sp.char_start = some a ∧ sp.char_end = some b ∧ a < b) := by
  unfold parseEvidenceSpanItem at h
  cases hobj : asObj row with
  | none =>
    rw [hobj] at h
    exact absurd h (by simp)
  | some span =>
    rw [hobj] at h
    dsimp only at h
    by_cases hexc : pyStrip (pyStr (dGet span "excerpt" (.jstr []))) = []
    · rw [if_pos hexc] at h
      exact absurd h (by simp)
    · rw [if_neg hexc] at h
      have hs := Option.some.inj h
      rcases fixSpanOffsets_invariant (spanOffsetOf (dGet span "char_start" .jnull))
        (spanOffsetOf (dGet span "char_end" .jnull)) with ⟨h1, h2⟩ | ⟨a, b, h1, h2, hab⟩
      · left
        rw [← hs]
        exact ⟨h1, h2⟩
      · right
        refine ⟨a, b, ?_, ?_, hab⟩
        · rw [← hs]; exact h1
        · rw [← hs]; exact h2

lemma spanUsable_of_parse {row : JVal} {sp : ParsedEvidenceSpan}
    (h : parseEvidenceSpanItem row = some sp) : spanUsable row := by
  unfold parseEvidenceSpanItem at h
  cases hobj : asObj row with
  | none =>
    rw [hobj] at h
    exact absurd h (by simp)
  | some span =>
    rw [hobj] at h
    dsimp only at h
    by_cases hexc : pyStrip (pyStr (dGet span "excerpt" (.jstr []))) = []
    · rw [if_pos hexc] at h
      exact absurd h (by simp)
    · exact ⟨span, hobj, hexc⟩

lemma claimItemFails_none (v : JVal) (hf : claimItemFails v) : parseClaimItem v = none := by
  unfold claimItemFails at hf
  unfold parseClaimItem
  cases hobj : asObj v with
  | none => rfl
  | some item =>
    rw [hobj] at hf
    dsimp only at hf
    dsimp only
    by_cases h1 : ¬ pyStrip (pyStr (dGet item "modality" (.jstr []))) ∈ SUPPORTED_MODALITIES ∨
        ¬ pyStrip (pyStr (dGet item "polarity" (.jstr []))) ∈ SUPPORTED_POLARITIES ∨
        ¬ pyStrip (pyStr (dGet item "me_role" (.jstr []))) ∈ SUPPORTED_ME_ROLES
    · rw [if_pos h1]
    · rw [if_neg h1]
      cases hq : pyFloat (dGet item "certainty" (.jnum 0)) with
      | none => rfl
      | some q =>
        dsimp only
        by_cases h2 : q < 0 ∨ q > 1
        · rw [if_pos h2]
        · rw [if_neg h2]
          by_cases h3 : ¬ pyStrip (pyStr (dGet item "predicate" (.jstr []))) ∈
              SUPPORTED_PREDICATES
          · rw [if_pos h3]
          · rw [if_neg h3]
            by_cases h4 : pyStrip (pyStr (dGet item "subject_text" (.jstr []))) = [] ∨
                pyStrip (pyStr (dGet item "object_text_raw"
                  (dGet item "object_text" (.jstr [])))) = [] ∨
                pyStrip (pyStr (dGet item "object_text_canonical"
                  (.jstr (pyStrip (pyStr (dGet item "object_text_raw"
                    (dGet item "object_text" (.jstr [])))))))) = []
            · rw [if_pos h4]
            · rw [if_neg h4]
              have hlacks : claimLacksEvidence item := by
                rcases hf with hf | hf | hf
                · exact absurd hf (by unfold claimEnumsFail; tauto)
                · obtain ⟨q2, hq2, hr⟩ := hf
                  rw [hq] at hq2
                  cases Option.some.inj hq2
                  exact absurd hr h2
                · exact hf
              have hnil : (match asList (dGet item "evidence_spans" (.jarr [])) with
                  | some rows => rows.filterMap parseEvidenceSpanItem
                  | none => []) = [] := by
                unfold claimLacksEvidence at hlacks
                cases hrows : asList (dGet item "evidence_spans" (.jarr [])) with
                | none => rfl
                | some rows =>
                  rw [hrows] at hlacks
                  apply List.filterMap_eq_nil.2
                  intro row hrow
                  cases hparse : parseEvidenceSpanItem row with
                  | none => rfl
                  | some sp => exact absurd (spanUsable_of_parse hparse) (hlacks row hrow)
              rw [if_pos hnil]

lemma linkItemFails_none (v : JVal) (hf : linkItemFails v) : parseLinkItem v = none := by
  unfold linkItemFails at hf
  unfold parseLinkItem
  cases hobj : asObj v with
  | none => rfl
  | some item =>
    rw [hobj] at hf
    dsimp only at hf
    dsimp only
    by_cases h1 : ¬ pyStrip (pyStr (dGet item "relation_type" (.jstr []))) ∈ SUPPORTED_RELATIONS
    · rw [if_pos h1]
    · rw [if_neg h1]
      cases hfi : pyIntOf (dGet item "from_claim_index" .jnull) with
      | none => rfl
      | some fidx =>
        cases hti : pyIntOf (dGet item "to_claim_index" .jnull) with
        | none => rfl
        | some tidx =>
          dsimp only
          by_cases hneg : fidx < 0 ∨ tidx < 0
          · rw [if_pos hneg]
          · rw [if_neg hneg]
            cases hq : pyFloat (dGet item "confidence" (.jnum 0)) with
            | none => rfl
            | some q =>
              dsimp only
              by_cases h2 : q < 0 ∨ q > 1
              · rw [if_pos h2]
              · rw [if_neg h2]
                rcases hf with hf | hf
                · exact absurd hf h1
                · obtain ⟨q2, hq2, hr⟩ := hf
                  rw [hq] at hq2
                  cases Option.some.inj hq2
                  exact absurd hr h2

lemma entityItemFails_none (v : JVal) (hf : entityItemFails v) : parseEntityItem v = none := by
  unfold entityItemFails at hf
  unfold parseEntityItem
  cases hobj : asObj v with
  | none => rfl
  | some item =>
    rw [hobj] at hf
    dsimp only at hf
    dsimp only
    by_cases h1 : pyStrip (pyStr (dGet item "name" (.jstr []))) = [] ∨
        ¬ pyStrip (pyStr (dGet item "entity_type" (.jstr []))) ∈ SUPPORTED_ENTITY_TYPES
    · rw [if_pos h1]
    · rw [if_neg h1]
      exact absurd (Or.inr hf) h1

lemma parseClaimItem_spans {v : JVal} {c : ParsedClaim} (h : parseClaimItem v = some c) :
    ∀ sp ∈ c.evidence_spans,
      (sp.char_start = none ∧ sp.char_end = none) ∨
      (∃ a b, sp.char_start = some a ∧ sp.char_end = some b ∧ a < b) := by
  unfold parseClaimItem at h
  cases hobj : asObj v with
  | none =>
    rw [hobj] at h
    exact absurd h (by simp)
  | some item =>
    rw [hobj] at h
    dsimp only at h
    by_cases h1 : ¬ pyStrip (pyStr (dGet item "modality" (.jstr []))) ∈ SUPPORTED_MODALITIES ∨
        ¬ pyStrip (pyStr (dGet item "polarity" (.jstr []))) ∈ SUPPORTED_POLARITIES ∨
        ¬ pyStrip (pyStr (dGet item "me_role" (.jstr []))) ∈ SUPPORTED_ME_ROLES
    · rw [if_pos h1] at h
      exact absurd h (by simp)
    · rw [if_neg h1] at h
      cases hq : pyFloat (dGet item "certainty" (.jnum 0)) with
      | none =>
        rw [hq] at h
        exact absurd h (by simp)
      | some q =>
        rw [hq] at h
        dsimp only at h
        by_cases h2 : q < 0 ∨ q > 1
        · rw [if_pos h2] at h
          exact absurd h (by simp)
        · rw [if_neg h2] at h
          by_cases h3 : ¬ pyStrip (pyStr (dGet item "predicate" (.jstr []))) ∈
              SUPPORTED_PREDICATES
          · rw [if_pos h3] at h
            exact absurd h (by simp)
          · rw [if_neg h3] at h
            by_cases h4 : pyStrip (pyStr (dGet item "subject_text" (.jstr []))) = [] ∨
                pyStrip (pyStr (dGet item "object_text_raw"
                  (dGet item "object_text" (.jstr [])))) = [] ∨
                pyStrip (pyStr (dGet item "object_text_canonical"
                  (.jstr (pyStrip (pyStr (dGet item "object_text_raw"
                    (dGet item "object_text" (.jstr [])))))))) = []
            · rw [if_pos h4] at h
              exact absurd h (by simp)
            · rw [if_neg h4] at h
              by_cases h5 : (match asList (dGet item "evidence_spans" (.jarr [])) with
                  | some rows => rows.filterMap parseEvidenceSpanItem
                  | none => []) = []
              · rw [if_pos h5] at h
                exact absurd h (by simp)
              · rw [if_neg h5] at h
                have hc := Option.some.inj h
                intro sp hsp
                rw [← hc] at hsp
                rw [mk_evidence_spans] at hsp
                dsimp only at hsp
                cases hrows : asList (dGet item "evidence_spans" (.jarr [])) with
                | none =>
                  rw [hrows] at hsp
                  exact absurd hsp (by simp)
                | some rows =>
                  rw [hrows] at hsp
                  dsimp only at hsp
                  rw [List.mem_filterMap] at hsp
                  obtain ⟨row, _, hparse⟩ := hsp
                  exact parseEvidenceSpanItem_invariant hparse

/-- C5: for every payload whose `claims`/`entities`/`links` fields are
lists, parsing succeeds (never raises) and is per-item: an item failing
enum membership, the certainty/confidence range check, or lacking an
evidence span with a non-empty excerpt is silently omitted; and every
evidence span in the result has `char_start`/`char_end` either both absent
or both present with `char_end > char_start`. -/
theorem C5_tolerant_parsing (payload : List (Str × JVal)) (cs es ls : List JVal)
    (hcs : dGet payload "claims" (.jarr []) = .jarr cs)
    (hes : dGet payload "entities" (.jarr []) = .jarr es)
    (hls : dGet payload "links" (.jarr []) = .jarr ls) :
    parse_claims_output payload =
      some ⟨cs.filterMap parseClaimItem, es.filterMap parseEntityItem,
            ls.filterMap parseLinkItem⟩ ∧
    (∀ item ∈ cs, claimItemFails item → parseClaimItem item = none) ∧
    (∀ item ∈ ls, linkItemFails item → parseLinkItem item = none) ∧
    (∀ item ∈ es, entityItemFails item → parseEntityItem item = none) ∧
    (∀ c ∈ cs.filterMap parseClaimItem, ∀ sp ∈ c.evidence_spans,
      (sp.char_start = none ∧ sp.char_end = none) ∨
      (∃ a b, sp.char_start = some a ∧ sp.char_end = some b ∧ a < b)) := by
  refine ⟨?_, ?_, ?_, ?_, ?_⟩
  · unfold parse_claims_output
    rw [hcs, hes, hls]
    rfl
  · exact fun item _ hf => claimItemFails_none item hf
  · exact fun item _ hf => linkItemFails_none item hf
  · exact fun item _ hf => entityItemFails_none item hf
  · intro c hc
    rw [List.mem_filterMap] at hc
    obtain ⟨item, _, hparse⟩ := hc
    exact parseClaimItem_spans hparse

/-- C5 witness: at a concrete payload with one malformed claim item and
one malformed link item, parsing succeeds and both items are omitted. -/
theorem C5_tolerant_parsing_witness :
    parse_claims_output samplePayload = some ⟨[], [], []⟩ ∧
    parseClaimItem badClaimItem = none := by
  have h := C5_tolerant_parsing samplePayload [badClaimItem] []
    [.jobj [(txt "relation_type", .jstr (txt "rebuts"))]] rfl rfl rfl
  have h1 := h.2.1 badClaimItem (by simp) (Or.inl (by unfold claimEnumsFail; decide))
  have h2 := h.2.2.1 (.jobj [(txt "relation_type", .jstr (txt "rebuts"))])
    (by simp) (Or.inl (by decide))
  refine ⟨?_, h1⟩
  rw [h.1]
  simp [List.filterMap_cons, h1, h2]

/-! ## C6 -/

lemma dedupeGo_spec (tok : Str → List MorphToken) (m : Nat) (facts : List Fact) :
    ∀ (out : List Fact) (seenE seenN : List (Str × Str × Str)),
    (∀ a ∈ out, a.key ∈ seenE) → (∀ a ∈ out, a.normKey tok ∈ seenN) →
    (out.Pairwise fun a b => a.key ≠ b.key ∧ a.normKey tok ≠ b.normKey tok) →
    ∃ added, dedupeGo tok m facts seenE seenN out = out ++ added ∧
      added.Sublist facts ∧
      ((out ++ added).Pairwise fun a b => a.key ≠ b.key ∧ a.normKey tok ≠ b.normKey tok) ∧
      (out ++ added).length ≤ max m (out.length + 1) := by
  induction facts with
  | nil =>
    intro out seenE seenN hE hN hP
    refine ⟨[], by rw [dedupeGo, List.append_nil], List.nil_sublist _, by simpa using hP, ?_⟩
    simp only [List.append_nil]
    omega
  | cons f fs ih =>
    intro out seenE seenN hE hN hP
    unfold dedupeGo
    dsimp only
    by_cases hkey : f.key.1 = [] ∨ f.key.2.1 = [] ∨ f.key.2.2 = []
    · rw [if_pos hkey]
      obtain ⟨added, heq, hsub, hpw, hlen⟩ := ih out seenE seenN hE hN hP
      exact ⟨added, heq, hsub.cons _, hpw, hlen⟩
    · rw [if_neg hkey]
      by_cases hseen : f.key ∈ seenE ∨ f.normKey tok ∈ seenN
      · rw [if_pos hseen]
        obtain ⟨added, heq, hsub, hpw, hlen⟩ := ih out seenE seenN hE hN hP
        exact ⟨added, heq, hsub.cons _, hpw, hlen⟩
      · rw [if_neg hseen]
        have hR : ∀ a ∈ out, a.key ≠ f.key ∧ a.normKey tok ≠ f.normKey tok := by
          intro a ha
          exact ⟨fun hc => hseen (Or.inl (hc ▸ hE a ha)),
                 fun hc => hseen (Or.inr (hc ▸ hN a ha))⟩
        have hpw2 : (out ++ [f]).Pairwise
            (fun a b => a.key ≠ b.key ∧ a.normKey tok ≠ b.normKey tok) := by
          rw [List.pairwise_append]
          refine ⟨hP, List.pairwise_singleton _ _, ?_⟩
          intro a ha b hb
          rw [List.mem_singleton] at hb
          subst hb
          exact hR a ha
        by_cases hcap : m ≤ (out ++ [f]).length
        · rw [if_pos hcap]
          refine ⟨[f], rfl, by simp, hpw2, ?_⟩
          simp only [List.length_append, List.length_singleton]
          omega
        · rw [if_neg hcap]
          have hE2 : ∀ a ∈ out ++ [f], a.key ∈ seenE ++ [f.key] := by
            intro a ha
            rw [List.mem_append, List.mem_singleton] at ha
            rcases ha with ha | ha
            · exact List.mem_append_left _ (hE a ha)
            · subst ha
              exact List.mem_append_right _ (List.mem_singleton.2 rfl)
          have hN2 : ∀ a ∈ out ++ [f], a.normKey tok ∈ seenN ++ [f.normKey tok] := by
            intro a ha
            rw [List.mem_append, List.mem_singleton] at ha
            rcases ha with ha | ha
            · exact List.mem_append_left _ (hN a ha)
            · subst ha
              exact List.mem_append_right _ (List.mem_singleton.2 rfl)
          obtain ⟨added, heq, hsub, hpw3, hlen⟩ :=
            ih (out ++ [f]) (seenE ++ [f.key]) (seenN ++ [f.normKey tok]) hE2 hN2 hpw2
          refine ⟨f :: added, ?_, hsub.cons₂ _, ?_, ?_⟩
          · rw [heq]
            simp
          · rw [show out ++ f :: added = (out ++ [f]) ++ added by simp]
            exact hpw3
          · rw [List.length_append] at hcap ⊢
            rw [List.length_append, List.length_append] at hlen
            simp only [List.length_cons, List.length_singleton] at hcap hlen ⊢
            omega

/-- C6 counterexample: with `max_facts = 0` the deduplicated list has one
element, not zero — the cap check runs only after an append, so the output
length is bounded by `max(max_facts, 1)`, not by `max_facts`. -/
theorem C6_cap_zero_counterexample :
    (dedupe_facts tokNone [keyFact "me" "learned" "x"] 0).length = 1 := by decide

/-- C6 (amended): `dedupe_facts` returns a subsequence of its input in
which no two kept facts agree on the exact stripped key triple or on the
normalized key triple (so a candidate matching an already-kept fact on
either test is dropped), and caps the output length at
`max(max_facts, 1)`; the lemma join is in token order (first 16), not
sorted.  Concretely, (me, learned, "retry 戦略") and
(me, learned, "retry戦略") collapse to one fact. -/
theorem C6_dedupe (tok : Str → List MorphToken) (facts : List Fact) (max_facts : Nat) :
    (dedupe_facts tok facts max_facts).Sublist facts ∧
    (dedupe_facts tok facts max_facts).length ≤ max max_facts 1 ∧
    ((dedupe_facts tok facts max_facts).Pairwise fun a b =>
      a.key ≠ b.key ∧ a.normKey tok ≠ b.normKey tok) ∧
    (dedupe_facts tokNone
      [keyFact "me" "learned" "retry 戦略", keyFact "me" "learned" "retry戦略"]
      12).length = 1 := by
  obtain ⟨added, heq, hsub, hpw, hlen⟩ :=
    dedupeGo_spec tok max_facts facts [] [] [] (by simp) (by simp) (by simp)
  have hfacts : dedupe_facts tok facts max_facts = added := by
    unfold dedupe_facts
    rw [heq]
    simp
  refine ⟨?_, ?_, ?_, by decide⟩
  · rw [hfacts]
    exact hsub
  · rw [hfacts]
    have := hlen
    simp only [List.nil_append, List.length_nil] at this
    omega
  · rw [hfacts]
    simpa using hpw

/-! ## C8 -/

lemma execWrites_committed (ops : List WriteOp) (db : DBState) :
    (ops.foldl (fun d op => execWrite op d) db).committed = db.committed := by
  induction ops generalizing db with
  | nil => rfl
  | cons op ops ih =>
    simp only [List.foldl_cons]
    rw [ih]
    rfl

/-- C8: when the model call / response parsing fails, the quality gate
rejects every claim, or persistence fails, `run` reports status `queued`
with error code `retryable_error`, `next_retry_at` exactly 5 minutes after
the failure time and the triggering message, and rolls back the
transaction: the committed rows are unchanged and no pending write
survives (the bundle is all-or-nothing). -/
theorem C8_retryable_rollback (db0 : DBState) (now attempt : Nat) (doc : Document)
    (llmResult : Except Str ParsedClaimsOutput) (persistWrites : List WriteOp)
    (persistResult : Except Str (Nat × Nat × Nat × Nat)) (e : Str)
    (hrisk : ¬ (redact_for_llm doc.raw_text).risk_level = txt "high")
    (hfail :
      llmResult = .error e ∨
      (∃ parsed, llmResult = .ok parsed ∧
        (apply_quality_gate (normalize_to_me_centric_claims parsed doc.raw_text
          doc.declared_type
          (if doc.occurred_at_utc = [] then none else some doc.occurred_at_utc))).1.claims
          = [] ∧
        e = txt "quality_gate_rejected_all_claims") ∨
      (∃ parsed, llmResult = .ok parsed ∧
        (apply_quality_gate (normalize_to_me_centric_claims parsed doc.raw_text
          doc.declared_type
          (if doc.occurred_at_utc = [] then none else some doc.occurred_at_utc))).1.claims
          ≠ [] ∧
        persistResult = .error e)) :
    (runExtract db0 now attempt (some doc) true llmResult persistWrites persistResult).1 =
      { status := txt "queued", claims_inserted := 0, evidence_inserted := 0,
        entities_upserted := 0, links_inserted := 0,
        error_code := some (txt "retryable_error"), attempt_count := max attempt 1,
        next_retry_at := some (now + 5), error := some e } ∧
    (runExtract db0 now attempt (some doc) true llmResult persistWrites
      persistResult).2.committed = db0.committed ∧
    (runExtract db0 now attempt (some doc) true llmResult persistWrites
      persistResult).2.pending = [] := by
  unfold runExtract
  dsimp only
  rw [if_neg hrisk, if_neg (by decide : ¬ ¬ (true : Bool) = true)]
  rcases hfail with he | ⟨parsed, hok, hempty, he⟩ | ⟨parsed, hok, hne, hp⟩
  · rw [he]
    exact ⟨rfl, rfl, rfl⟩
  · rw [hok]
    dsimp only
    rw [if_pos hempty, he]
    exact ⟨rfl, rfl, rfl⟩
  · rw [hok]
    dsimp only
    rw [if_neg hne, hp]
    refine ⟨rfl, ?_, rfl⟩
    exact execWrites_committed persistWrites _

/-- C8 witness: a failing model call on the sample document yields the
queued/retryable result with retry at `now + 5` and leaves the database
untouched. -/
theorem C8_retryable_rollback_witness :
    (runExtract ⟨[], []⟩ 100 1 (some witnessDoc) true (.error (txt "boom")) []
      (.ok (0, 0, 0, 0))).1 =
      { status := txt "queued", claims_inserted := 0, evidence_inserted := 0,
        entities_upserted := 0, links_inserted := 0,
        error_code := some (txt "retryable_error"), attempt_count := 1,
        next_retry_at := some 105, error := some (txt "boom") } ∧
    (runExtract ⟨[], []⟩ 100 1 (some witnessDoc) true (.error (txt "boom")) []
      (.ok (0, 0, 0, 0))).2.committed = [] ∧
    (runExtract ⟨[], []⟩ 100 1 (some witnessDoc) true (.error (txt "boom")) []
      (.ok (0, 0, 0, 0))).2.pending = [] := by
  have h := C8_retryable_rollback ⟨[], []⟩ 100 1 witnessDoc (.error (txt "boom")) []
    (.ok (0, 0, 0, 0)) (txt "boom") (by decide) (Or.inl rfl)
  exact h

end BrainDock
